import Mathlib

/-!
# dingo-watch-cluster-changes: the watch-diff-dispatch loop

A shallow embedding of `main.go`: the key regexp and `FindStringSubmatch`, the JSON
decoding of a node advertisement, and the body of the watch loop as the ordered list of
effects it performs (cache writes, cache deletions, spawned notifications).

Go strings are modelled as lists of characters (the keys and values delivered by the
coordination store are valid UTF-8). The JSON decoder is that of `encoding/json`, with its
bound on the nesting of arrays and objects. The cache `map[string]ClusterNodeStatus` is modelled
as a function from keys to optional entries.
-/

namespace DingoWatch

/-- Go strings, as lists of characters. -/
abbrev GoString := List Char

/-- ClusterNodeAdvert is stored by self_advertise_node.sh on container. -/
structure ClusterNodeAdvert where
  CellGUID : GoString
  NodeID : GoString
  State : GoString
  Role : GoString
deriving DecidableEq, Repr

/-- ClusterNodeStatus is the change notification data sent to Hub API. -/
structure ClusterNodeStatus where
  Cluster : GoString
  Node : GoString
  State : GoString
  Role : GoString
deriving DecidableEq, Repr

/-! ## The key regexp

`regexp.MustCompile("/service/(.*)/nodes/(.*)$")` uses literal characters, the capturing
group `(.*)` and the end-of-text anchor `$`. Go's `regexp` returns the match a backtracking
search finds first (leftmost, each `.*` as long as possible); `.` matches every character
but the line feed; `$` (no `m` flag) matches at the end of the text only. -/

/-- The items the key regexp is made of. -/
inductive RegexItem where
  | lit (c : Char)
  | dotStarGroup
  | endText
deriving DecidableEq, Repr

/-- Greedy `(.*)` followed by the continuation `k`: the group takes as many characters
other than line feed as it can, and gives them back one by one while `k` fails. The result
is the group's text, the text `k` matched and the groups `k` captured. -/
def starGreedy (k : GoString → Option (GoString × List GoString)) :
    GoString → Option (GoString × GoString × List GoString)
  | [] => (k []).map fun r => ([], r.1, r.2)
  | x :: s =>
    if x = '\n' then (k (x :: s)).map fun r => ([], r.1, r.2)
    else
      match starGreedy k s with
      | some (g, m, caps) => some (x :: g, m, caps)
      | none => (k (x :: s)).map fun r => ([], r.1, r.2)

/-- Match a regexp at the start of the text: the matched text and the captured groups. -/
def matchHere : List RegexItem → GoString → Option (GoString × List GoString)
  | [], _ => some ([], [])
  | .lit c :: p, s =>
    match s with
    | [] => none
    | x :: t => if x = c then (matchHere p t).map fun r => (x :: r.1, r.2) else none
  | .endText :: p, s => if s = [] then matchHere p s else none
  | .dotStarGroup :: p, s =>
    (starGreedy (matchHere p) s).map fun r => (r.1 ++ r.2.1, r.1 :: r.2.2)

/-- The leftmost match: the first start position, from the left, at which the regexp matches. -/
def findFrom (re : List RegexItem) : GoString → Option (GoString × List GoString)
  | [] => matchHere re []
  | x :: s =>
    match matchHere re (x :: s) with
    | some r => some r
    | none => findFrom re s

/-- Go's `(*Regexp).FindStringSubmatch`: the text of the leftmost match followed by the text
of each group, or nil (the empty slice) when there is no match. -/
def FindStringSubmatch (re : List RegexItem) (s : GoString) : List GoString :=
  match findFrom re s with
  | some (m, caps) => m :: caps
  | none => []

/-- A run of literal characters. -/
def lits (s : GoString) : List RegexItem := s.map RegexItem.lit

/-- The text `/service/`. -/
def servicePrefix : GoString := ['/', 's', 'e', 'r', 'v', 'i', 'c', 'e', '/']

/-- The text `/nodes/`. -/
def nodesInfix : GoString := ['/', 'n', 'o', 'd', 'e', 's', '/']

/-- The regexp of `main`: `node := regexp.MustCompile("/service/(.*)/nodes/(.*)$")`. -/
def node : List RegexItem :=
  lits servicePrefix ++ [.dotStarGroup] ++ lits nodesInfix ++ [.dotStarGroup, .endText]

/-- The watch root of `main`: `WATCH_ROOT_PATH`, or `/service/` when it is empty or unset.
It is the path handed to `kapi.Watcher`; the regexp and the loop body never read it. -/
def watcherRootPath (env : GoString) : GoString :=
  if env = [] then servicePrefix else env

/-! ## Decoding the advertisement

`json.NewDecoder(strings.NewReader(value)).Decode(advert)` first reads one complete JSON
value from the input (leading white space skipped, what follows the value left unread) and
fails there on a syntax error or on the end of the input; it then unmarshals the value into
the struct. A value of the wrong JSON type for its target is skipped, the error is kept and
returned at the end, and the rest of the object is still decoded. Arrays and objects may be
nested `maxNestingDepth` deep and no deeper. -/

/-- JSON values, as far as decoding into a struct of strings tells them apart. -/
inductive JSON where
  | null
  | bool (b : Bool)
  | number
  | string (s : GoString)
  | array (elems : List JSON)
  | object (members : List (GoString × JSON))

/-- JSON white space. -/
def isSpace (c : Char) : Bool := c = ' ' || c = '\t' || c = '\r' || c = '\n'

/-- Drop leading white space. -/
def skipSpace : GoString → GoString
  | [] => []
  | c :: s => if isSpace c then skipSpace s else c :: s

/-- Drop leading decimal digits. -/
def skipDigits : GoString → GoString
  | [] => []
  | c :: s => if c.isDigit then skipDigits s else c :: s

/-- The integer part of a number: `0`, or a non-zero digit and more digits. -/
def scanInt : GoString → Option GoString
  | [] => none
  | c :: s => if c = '0' then some s else if c.isDigit then some (skipDigits s) else none

/-- One digit or more. -/
def scanDigits1 : GoString → Option GoString
  | [] => none
  | c :: s => if c.isDigit then some (skipDigits s) else none

/-- The optional fraction of a number. -/
def scanFrac : GoString → Option GoString
  | '.' :: s => scanDigits1 s
  | s => some s

/-- The optional exponent of a number. -/
def scanExp : GoString → Option GoString
  | [] => some []
  | c :: s =>
    if c = 'e' ∨ c = 'E' then
      match s with
      | '+' :: t => scanDigits1 t
      | '-' :: t => scanDigits1 t
      | t => scanDigits1 t
    else some (c :: s)

/-- A JSON number; the result is the text after it. -/
def scanNumber (s : GoString) : Option GoString :=
  let body := match s with
    | '-' :: t => t
    | t => t
  (scanInt body).bind fun r => (scanFrac r).bind scanExp

/-- What a string literal is made of: a character (plain or from a two-character escape)
or the 16-bit unit of a `\u` escape. -/
inductive StrItem where
  | ch (c : Char)
  | u16 (n : Nat)

/-- The value of a hexadecimal digit. -/
def hexVal (c : Char) : Option Nat :=
  if '0' ≤ c ∧ c ≤ '9' then some (c.toNat - 48)
  else if 'a' ≤ c ∧ c ≤ 'f' then some (c.toNat - 87)
  else if 'A' ≤ c ∧ c ≤ 'F' then some (c.toNat - 55)
  else none

/-- The four hexadecimal digits of a `\u` escape. -/
def getu4 (a b c d : Char) : Option Nat :=
  match hexVal a, hexVal b, hexVal c, hexVal d with
  | some x, some y, some z, some w => some (((x * 16 + y) * 16 + z) * 16 + w)
  | _, _, _, _ => none

/-- The two-character escapes. -/
def unescape (c : Char) : Option Char :=
  if c = '"' then some '"'
  else if c = '\\' then some '\\'
  else if c = '/' then some '/'
  else if c = 'b' then some (Char.ofNat 8)
  else if c = 'f' then some (Char.ofNat 12)
  else if c = 'n' then some '\n'
  else if c = 'r' then some '\r'
  else if c = 't' then some '\t'
  else none

/-- A string literal after its opening quote: its items and the text after the closing
quote. Control characters and unknown escapes are syntax errors. -/
def scanString : GoString → Option (List StrItem × GoString)
  | [] => none
  | c :: r =>
    if c = '"' then some ([], r)
    else if c = '\\' then
      match r with
      | [] => none
      | e :: t =>
        if e = 'u' then
          match t with
          | h1 :: h2 :: h3 :: h4 :: t' =>
            match getu4 h1 h2 h3 h4 with
            | some n => (scanString t').map fun p => (StrItem.u16 n :: p.1, p.2)
            | none => none
          | _ => none
        else
          match unescape e with
          | some x => (scanString t).map fun p => (StrItem.ch x :: p.1, p.2)
          | none => none
    else if c.toNat < 32 then none
    else (scanString r).map fun p => (StrItem.ch c :: p.1, p.2)

/-- Go's `utf16.IsSurrogate`. -/
def isSurrogate (n : Nat) : Bool := 0xD800 ≤ n && n < 0xE000

/-- Go's `utf16.DecodeRune`, with `none` for the replacement character. -/
def decodeRune (r1 r2 : Nat) : Option Char :=
  if 0xD800 ≤ r1 ∧ r1 < 0xDC00 ∧ 0xDC00 ≤ r2 ∧ r2 < 0xE000 then
    some (Char.ofNat ((r1 - 0xD800) * 1024 + (r2 - 0xDC00) + 0x10000))
  else none

/-- The replacement character U+FFFD. -/
def replacementChar : Char := Char.ofNat 0xFFFD

/-- The text of a string literal: a surrogate pair of `\u` escapes is one character, a lone
surrogate is the replacement character. -/
def unquote : List StrItem → GoString
  | [] => []
  | .ch c :: t => c :: unquote t
  | .u16 n :: .u16 m :: t =>
    if isSurrogate n then
      match decodeRune n m with
      | some c => c :: unquote t
      | none => replacementChar :: unquote (.u16 m :: t)
    else Char.ofNat n :: unquote (.u16 m :: t)
  | .u16 n :: t =>
    if isSurrogate n then replacementChar :: unquote t else Char.ofNat n :: unquote t

/-- The elements of an array after its opening bracket, `pv` reading one value. The counter
bounds the number of elements; the length of the text is always enough
(`parseElems_counter`). -/
def parseElems (pv : GoString → Option (JSON × GoString)) :
    Nat → GoString → Option (List JSON × GoString)
  | 0, _ => none
  | n + 1, s =>
    match pv (skipSpace s) with
    | none => none
    | some (v, r) =>
      match skipSpace r with
      | ',' :: r' => (parseElems pv n r').map fun p => (v :: p.1, p.2)
      | ']' :: r' => some ([v], r')
      | _ => none

/-- The members of an object after its opening brace, `pv` reading one value. The counter
bounds the number of members; the length of the text is always enough
(`parseMembers_counter`). -/
def parseMembers (pv : GoString → Option (JSON × GoString)) :
    Nat → GoString → Option (List (GoString × JSON) × GoString)
  | 0, _ => none
  | n + 1, s =>
    match skipSpace s with
    | '"' :: r =>
      match scanString r with
      | none => none
      | some (items, r1) =>
        match skipSpace r1 with
        | ':' :: r2 =>
          match pv (skipSpace r2) with
          | none => none
          | some (v, r3) =>
            match skipSpace r3 with
            | ',' :: r4 => (parseMembers pv n r4).map fun p => ((unquote items, v) :: p.1, p.2)
            | '}' :: r4 => some ([(unquote items, v)], r4)
            | _ => none
        | _ => none
    | _ => none

/-- The text after a literal word, when the text starts with the word. -/
def dropWord : GoString → GoString → Option GoString
  | [], s => some s
  | _ :: _, [] => none
  | c :: w, x :: s => if x = c then dropWord w s else none

/-- The nesting bound of the JSON scanner (`maxNestingDepth` of `encoding/json`): an array
or object nested deeper is the syntax error `exceeded max depth`. -/
def maxNestingDepth : Nat := 10000

/-- A JSON value that is not an array or object: a string, `true`, `false`, `null` or a
number. -/
def parseScalar : GoString → Option (JSON × GoString)
  | [] => none
  | c :: r =>
    if c = '"' then (scanString r).map fun p => (.string (unquote p.1), p.2)
    else if c = 't' then (dropWord ['r', 'u', 'e'] r).map fun r' => (.bool true, r')
    else if c = 'f' then (dropWord ['a', 'l', 's', 'e'] r).map fun r' => (.bool false, r')
    else if c = 'n' then (dropWord ['u', 'l', 'l'] r).map fun r' => (.null, r')
    else (scanNumber (c :: r)).map fun r' => (.number, r')

/-- One JSON value at the start of the text, and the text after it. The number is how many
levels of arrays and objects may still be opened: at 0 an opening brace or bracket is the
error `exceeded max depth`. -/
def parseValue : Nat → GoString → Option (JSON × GoString)
  | 0, s =>
    match s with
    | [] => none
    | c :: r => if c = '{' ∨ c = '[' then none else parseScalar (c :: r)
  | depth + 1, s =>
    match s with
    | [] => none
    | c :: r =>
      if c = '{' then
        match skipSpace r with
        | '}' :: r' => some (.object [], r')
        | _ => (parseMembers (parseValue depth) r.length r).map fun p => (.object p.1, p.2)
      else if c = '[' then
        match skipSpace r with
        | ']' :: r' => some (.array [], r')
        | _ => (parseElems (parseValue depth) r.length r).map fun p => (.array p.1, p.2)
      else parseScalar (c :: r)

/-- Arrays nested in one another, `n + 1` levels deep: the value of the text of `n + 1`
opening brackets and `n + 1` closing brackets. -/
def nestedArrays : Nat → JSON
  | 0 => .array []
  | n + 1 => .array [nestedArrays n]

/-- The decoder's `readValue`: the first JSON value of the input; `none` on a syntax error
(a value nested deeper than `maxNestingDepth` among them) and when the input ends before the
value does. -/
def readValue (s : GoString) : Option (JSON × GoString) :=
  parseValue maxNestingDepth (skipSpace s)

/-- The errors of `Decode`: `read` for an error while reading the value (a `SyntaxError`,
`io.EOF`, `io.ErrUnexpectedEOF`), `unmarshalType` for an `UnmarshalTypeError`. -/
inductive DecodeError where
  | read
  | unmarshalType
deriving DecidableEq, Repr

/-- The fields of `ClusterNodeAdvert`. -/
inductive AdvertField where
  | cellGUID
  | nodeID
  | state
  | role
deriving DecidableEq, Repr

/-- The JSON name of a field, from its struct tag. -/
def AdvertField.name : AdvertField → GoString
  | .cellGUID => ['c', 'e', 'l', 'l', '_', 'g', 'u', 'i', 'd']
  | .nodeID => ['n', 'o', 'd', 'e', '_', 'i', 'd']
  | .state => ['s', 't', 'a', 't', 'e']
  | .role => ['r', 'o', 'l', 'e']

/-- The text of a field of an advertisement. -/
def AdvertField.get : AdvertField → ClusterNodeAdvert → GoString
  | .cellGUID, a => a.CellGUID
  | .nodeID, a => a.NodeID
  | .state, a => a.State
  | .role, a => a.Role

/-- The fields in declaration order. -/
def advertFields : List AdvertField := [.cellGUID, .nodeID, .state, .role]

/-- Case folding of one character of an object key, towards the lower-case ASCII letters of
the field names: the upper-case ASCII letters, the long s and the Kelvin sign. -/
def foldRune (c : Char) : Char :=
  if 'A' ≤ c ∧ c ≤ 'Z' then Char.ofNat (c.toNat + 32)
  else if c = Char.ofNat 0x17F then 's'
  else if c = Char.ofNat 0x212A then 'k'
  else c

/-- Case-insensitive match of an object key against a field name. -/
def equalFold (name key : GoString) : Bool := key.map foldRune = name

/-- The field an object key decodes into: an exact match of the name, or else the first
case-insensitive match. -/
def findField (key : GoString) : Option AdvertField :=
  match advertFields.find? fun f => f.name = key with
  | some f => some f
  | none => advertFields.find? fun f => equalFold f.name key

/-- Store a JSON value into a string field: a string is stored, `null` leaves the field as it
is, any other value leaves it as it is and is an `UnmarshalTypeError`. -/
def storeString (old : GoString) : JSON → GoString × Bool
  | .string s => (s, false)
  | .null => (old, false)
  | _ => (old, true)

/-- Store a JSON value into one field of the advertisement. -/
def setField (a : ClusterNodeAdvert) (f : AdvertField) (v : JSON) : ClusterNodeAdvert × Bool :=
  match f with
  | .cellGUID =>
    ({ a with CellGUID := (storeString a.CellGUID v).1 }, (storeString a.CellGUID v).2)
  | .nodeID => ({ a with NodeID := (storeString a.NodeID v).1 }, (storeString a.NodeID v).2)
  | .state => ({ a with State := (storeString a.State v).1 }, (storeString a.State v).2)
  | .role => ({ a with Role := (storeString a.Role v).1 }, (storeString a.Role v).2)

/-- Decode the members of an object in order; members with an unknown key are skipped. -/
def objectInto :
    ClusterNodeAdvert × Bool → List (GoString × JSON) → ClusterNodeAdvert × Bool
  | acc, [] => acc
  | (a, e), (k, v) :: ms =>
    match findField k with
    | some f => objectInto ((setField a f v).1, e || (setField a f v).2) ms
    | none => objectInto (a, e) ms

/-- Unmarshal a JSON value into the advertisement: an object is decoded member by member,
`null` is a no-op, every other value is an `UnmarshalTypeError`. -/
def unmarshal (advert : ClusterNodeAdvert) : JSON → ClusterNodeAdvert × Option DecodeError
  | .object ms =>
    ((objectInto (advert, false) ms).1,
      if (objectInto (advert, false) ms).2 then some .unmarshalType else none)
  | .null => (advert, none)
  | _ => (advert, some .unmarshalType)

/-- The call `json.NewDecoder(strings.NewReader(value)).Decode(advert)`: the advertisement
after the call and the error returned. -/
def Decode (value : GoString) (advert : ClusterNodeAdvert) :
    ClusterNodeAdvert × Option DecodeError :=
  match readValue value with
  | none => (advert, some .read)
  | some (v, _) => unmarshal advert v

/-! ## The watch loop -/

/-- The fields of an etcd `client.Response` the loop reads: `Action`, `Node.Key` and
`Node.Value`. -/
structure Response where
  Action : GoString
  Key : GoString
  Value : GoString
deriving DecidableEq, Repr

/-- The cache `clusterNodes := map[string]ClusterNodeStatus{}`. -/
abbrev Cache := GoString → Option ClusterNodeStatus

/-- The empty map. -/
def emptyCache : Cache := fun _ => none

/-- The effects of the loop body, in program order: a goroutine spawned to notify the hub
(with the status `publishChange` posts), `delete(clusterNodes, key)` and
`clusterNodes[key] = status`. -/
inductive Effect where
  | spawn (status : ClusterNodeStatus)
  | delete (key : GoString)
  | store (key : GoString) (status : ClusterNodeStatus)
deriving DecidableEq, Repr

/-- The action text `expire`. -/
def expire : GoString := ['e', 'x', 'p', 'i', 'r', 'e']

/-- The state text `missing`. -/
def missing : GoString := ['m', 'i', 's', 's', 'i', 'n', 'g']

/-- The function `publishMissing`: it sets `status.State = "missing"` and calls
`publishChange`; the result is the status `publishChange` posts. -/
def publishMissing (status : ClusterNodeStatus) : ClusterNodeStatus :=
  { status with State := missing }

/-- The advertisement before decoding: `advert := &ClusterNodeAdvert{}`. -/
def newAdvert : ClusterNodeAdvert := ⟨[], [], [], []⟩

/-- The status of the upsert branch:
`ClusterNodeStatus{matches[1], matches[2], advert.State, advert.Role}`. -/
def statusOf (m1 m2 : GoString) (advert : ClusterNodeAdvert) : ClusterNodeStatus :=
  ⟨m1, m2, advert.State, advert.Role⟩

/-- One iteration of the loop of `main` on a response: the effects it performs, in order. -/
def loopBody (clusterNodes : Cache) (resp : Response) : List Effect :=
  match FindStringSubmatch node resp.Key with
  | [_, m1, m2] =>
    if resp.Action = expire then
      [.spawn (publishMissing ⟨m1, m2, [], []⟩), .delete resp.Key]
    else
      let advert := (Decode resp.Value newAdvert).1
      let status := statusOf m1 m2 advert
      let changed :=
        match clusterNodes resp.Key with
        | some old => decide (old ≠ status)
        | none => true
      .store resp.Key status :: (if changed then [.spawn status] else [])
  | _ => []

/-- The effect of one statement on the cache. -/
def applyEffect (c : Cache) : Effect → Cache
  | .spawn _ => c
  | .delete key => Function.update c key none
  | .store key status => Function.update c key (some status)

/-- The cache after a list of effects. -/
def cacheAfter (c : Cache) (effs : List Effect) : Cache := effs.foldl applyEffect c

/-- The notifications a list of effects dispatches, in order. -/
def dispatched : List Effect → List ClusterNodeStatus
  | [] => []
  | .spawn status :: effs => status :: dispatched effs
  | _ :: effs => dispatched effs

/-- Processing one event: the cache afterwards and the notifications dispatched. -/
def processEvent (c : Cache) (resp : Response) : Cache × List ClusterNodeStatus :=
  (cacheAfter c (loopBody c resp), dispatched (loopBody c resp))

/-- What `watcher.Next` returns: a response, a `*client.ClusterError`, or another error. -/
inductive NextResult where
  | ok (resp : Response)
  | clusterError
  | otherError
deriving DecidableEq, Repr

/-- The loop of `main` over the results of `watcher.Next`: a cluster error is logged and the
loop continues, any other error ends the process (`log.Fatal`), a response is processed. The
result is the cache at the end and the notifications dispatched, in order. -/
def watchLoop : Cache → List NextResult → Cache × List ClusterNodeStatus
  | c, [] => (c, [])
  | c, .clusterError :: rs => watchLoop c rs
  | c, .otherError :: _ => (c, [])
  | c, .ok resp :: rs =>
    ((watchLoop (processEvent c resp).1 rs).1,
      (processEvent c resp).2 ++ (watchLoop (processEvent c resp).1 rs).2)

/-- The responses the loop processes: those before the first error that is not a cluster
error. -/
def processed : List NextResult → List Response
  | [] => []
  | .clusterError :: rs => processed rs
  | .otherError :: _ => []
  | .ok resp :: rs => resp :: processed rs

/-- The status the upsert branch computes for a response whose key is matched:
`ClusterNodeStatus{matches[1], matches[2], advert.State, advert.Role}`. -/
def eventStatus (resp : Response) : ClusterNodeStatus :=
  statusOf ((FindStringSubmatch node resp.Key).getD 1 [])
    ((FindStringSubmatch node resp.Key).getD 2 []) (Decode resp.Value newAdvert).1

/-- The test `len(matches) == 3` of the loop, on a response. -/
def isMatched (resp : Response) : Bool := (FindStringSubmatch node resp.Key).length = 3

/-- Whether an effect changes the cache. -/
def Effect.isMutation : Effect → Bool
  | .spawn _ => false
  | .delete _ => true
  | .store _ _ => true

/-- Whether, in a list of effects in program order, no cache mutation comes after a spawned
notification. -/
def mutationBeforeSpawn : List Effect → Bool
  | [] => true
  | .spawn _ :: rest => rest.all (fun e => !e.isMutation) && mutationBeforeSpawn rest
  | _ :: rest => mutationBeforeSpawn rest

/-! ## The JSON reader: its counters are always enough, its nesting bound only refuses -/

theorem skipSpace_length (s : GoString) : (skipSpace s).length ≤ s.length := by
  induction s with
  | nil => simp [skipSpace]
  | cons c s ih =>
    simp only [skipSpace]
    split
    · simp; omega
    · simp

theorem skipDigits_length (s : GoString) : (skipDigits s).length ≤ s.length := by
  induction s with
  | nil => simp [skipDigits]
  | cons c s ih =>
    simp only [skipDigits]
    split
    · simp; omega
    · simp

theorem scanInt_length (s r : GoString) (h : scanInt s = some r) : r.length < s.length := by
  cases s with
  | nil => simp [scanInt] at h
  | cons c s =>
    simp only [scanInt] at h
    split at h
    · simp at h; subst h; simp
    · split at h
      · simp at h; subst h
        have := skipDigits_length s
        simp; omega
      · simp at h

theorem scanDigits1_length (s r : GoString) (h : scanDigits1 s = some r) :
    r.length < s.length := by
  cases s with
  | nil => simp [scanDigits1] at h
  | cons c s =>
    simp only [scanDigits1] at h
    split at h
    · simp at h; subst h
      have := skipDigits_length s
      simp; omega
    · simp at h

theorem scanFrac_length (s r : GoString) (h : scanFrac s = some r) : r.length ≤ s.length := by
  unfold scanFrac at h
  split at h
  · have := scanDigits1_length _ _ h
    simp; omega
  · simp at h; subst h; exact le_refl _

theorem scanExp_length (s r : GoString) (h : scanExp s = some r) : r.length ≤ s.length := by
  cases s with
  | nil => simp [scanExp] at h; subst h; simp
  | cons c s =>
    simp only [scanExp] at h
    split at h
    · split at h
      · have := scanDigits1_length _ _ h
        simp at this ⊢; omega
      · have := scanDigits1_length _ _ h
        simp at this ⊢; omega
      · have := scanDigits1_length _ _ h
        simp; omega
    · simp at h; subst h; simp

theorem scanNumber_length (s r : GoString) (h : scanNumber s = some r) :
    r.length < s.length := by
  unfold scanNumber at h
  simp only [Option.bind_eq_some] at h
  obtain ⟨r1, h1, r2, h2, h3⟩ := h
  have l1 := scanInt_length _ _ h1
  have l2 := scanFrac_length _ _ h2
  have l3 := scanExp_length _ _ h3
  split at l1
  · simp at l1 ⊢; omega
  · omega

theorem scanString_length_aux (k : Nat) : ∀ (s : GoString) (items : List StrItem)
    (r : GoString), s.length ≤ k → scanString s = some (items, r) → r.length < s.length := by
  induction k with
  | zero =>
    intro s items r hk h
    have : s = [] := List.length_eq_zero.mp (by omega)
    subst this
    simp [scanString] at h
  | succ k ih =>
    intro s items r hk h
    cases s with
    | nil => simp [scanString] at h
    | cons c s =>
      rw [scanString.eq_def] at h
      simp only at h
      split at h
      · simp at h; rw [← h.2]; simp
      · split at h
        · split at h
          · simp at h
          · rename_i e t
            split at h
            · split at h
              · rename_i h1 h2 h3 h4 t'
                split at h
                · cases hs : scanString t' with
                  | none => simp [hs] at h
                  | some q =>
                    obtain ⟨is, r'⟩ := q
                    have := ih t' is r' (by simp at hk ⊢; omega) hs
                    simp [hs] at h
                    rw [← h.2]
                    simp; omega
                · simp at h
              · simp at h
            · split at h
              · cases hs : scanString t with
                | none => simp [hs] at h
                | some q =>
                  obtain ⟨is, r'⟩ := q
                  have := ih t is r' (by simp at hk ⊢; omega) hs
                  simp [hs] at h
                  rw [← h.2]
                  simp; omega
              · simp at h
        · split at h
          · simp at h
          · cases hs : scanString s with
            | none => simp [hs] at h
            | some q =>
              obtain ⟨is, r'⟩ := q
              have := ih s is r' (by simp at hk ⊢; omega) hs
              simp [hs] at h
              rw [← h.2]
              simp; omega

theorem scanString_length (s : GoString) (items : List StrItem) (r : GoString)
    (h : scanString s = some (items, r)) : r.length < s.length :=
  scanString_length_aux s.length s items r (le_refl _) h

theorem parseElems_length (pv : GoString → Option (JSON × GoString))
    (hpv : ∀ t x, pv t = some x → x.2.length < t.length) (n : Nat) :
    ∀ (s : GoString) (y : List JSON × GoString),
      parseElems pv n s = some y → y.2.length < s.length := by
  induction n with
  | zero => intro s y h; simp [parseElems] at h
  | succ n ih =>
    intro s y h
    simp only [parseElems] at h
    split at h
    · simp at h
    · rename_i v r hv
      have l1 := hpv _ _ hv
      have l2 := skipSpace_length s
      have l3 := skipSpace_length r
      simp only at l1
      split at h
      · rename_i r' hr
        cases hs : parseElems pv n r' with
        | none => simp [hs] at h
        | some q =>
          have := ih r' q hs
          simp [hs] at h
          rw [← h]
          rw [hr] at l3
          simp at l3 ⊢
          omega
      · rename_i r' hr
        simp at h
        rw [← h]
        rw [hr] at l3
        simp at l3 ⊢
        omega
      · simp at h

theorem parseMembers_length (pv : GoString → Option (JSON × GoString))
    (hpv : ∀ t x, pv t = some x → x.2.length < t.length) (n : Nat) :
    ∀ (s : GoString) (y : List (GoString × JSON) × GoString),
      parseMembers pv n s = some y → y.2.length < s.length := by
  induction n with
  | zero => intro s y h; simp [parseMembers] at h
  | succ n ih =>
    intro s y h
    simp only [parseMembers] at h
    split at h
    · rename_i r hr
      split at h
      · simp at h
      · rename_i items r1 hs1
        split at h
        · rename_i r2 hr2
          split at h
          · simp at h
          · rename_i v r3 hv
            have l0 := skipSpace_length s
            have l1 := scanString_length _ _ _ hs1
            have l2 := skipSpace_length r1
            have l3 := skipSpace_length r2
            have l4 := hpv _ _ hv
            have l5 := skipSpace_length r3
            rw [hr] at l0
            rw [hr2] at l2
            simp only at l4
            simp at l0 l2
            split at h
            · rename_i r4 hr4
              rw [hr4] at l5
              simp at l5
              cases hs : parseMembers pv n r4 with
              | none => simp [hs] at h
              | some q =>
                have := ih r4 q hs
                simp [hs] at h
                rw [← h]
                simp
                omega
            · rename_i r4 hr4
              rw [hr4] at l5
              simp at l5 h
              rw [← h]
              simp
              omega
            · simp at h
        · simp at h
    · simp at h

theorem dropWord_length (w s r : GoString) (h : dropWord w s = some r) :
    r.length ≤ s.length := by
  induction w generalizing s with
  | nil => simp [dropWord] at h; subst h; exact le_refl _
  | cons c w ih =>
    cases s with
    | nil => simp [dropWord] at h
    | cons x s =>
      simp only [dropWord] at h
      split at h
      · have := ih s h
        simp; omega
      · simp at h

theorem parseScalar_length (s : GoString) (x : JSON × GoString)
    (h : parseScalar s = some x) : x.2.length < s.length := by
  cases s with
  | nil => simp [parseScalar] at h
  | cons c r =>
    simp only [parseScalar] at h
    split at h
    · cases hp : scanString r with
      | none => simp [hp] at h
      | some q =>
        have := scanString_length _ _ _ hp
        simp [hp] at h
        rw [← h]
        simp
        omega
    · split at h
      · cases hp : dropWord ['r', 'u', 'e'] r with
        | none => simp [hp] at h
        | some q =>
          have := dropWord_length _ _ _ hp
          simp [hp] at h
          rw [← h]
          simp
          omega
      · split at h
        · cases hp : dropWord ['a', 'l', 's', 'e'] r with
          | none => simp [hp] at h
          | some q =>
            have := dropWord_length _ _ _ hp
            simp [hp] at h
            rw [← h]
            simp
            omega
        · split at h
          · cases hp : dropWord ['u', 'l', 'l'] r with
            | none => simp [hp] at h
            | some q =>
              have := dropWord_length _ _ _ hp
              simp [hp] at h
              rw [← h]
              simp
              omega
          · cases hp : scanNumber (c :: r) with
            | none => simp [hp] at h
            | some q =>
              have := scanNumber_length _ _ hp
              simp [hp] at h
              rw [← h]
              exact this

theorem parseValue_succ (depth : Nat) (c : Char) (r : GoString) :
    parseValue (depth + 1) (c :: r)
      = if c = '{' then
          match skipSpace r with
          | '}' :: r' => some (.object [], r')
          | _ => (parseMembers (parseValue depth) r.length r).map fun p => (.object p.1, p.2)
        else if c = '[' then
          match skipSpace r with
          | ']' :: r' => some (.array [], r')
          | _ => (parseElems (parseValue depth) r.length r).map fun p => (.array p.1, p.2)
        else parseScalar (c :: r) :=
  rfl

theorem parseValue_zero (c : Char) (r : GoString) :
    parseValue 0 (c :: r) = if c = '{' ∨ c = '[' then none else parseScalar (c :: r) :=
  rfl

theorem parseValue_nil (depth : Nat) : parseValue depth [] = none := by
  cases depth <;> rfl

theorem parseValue_length (m : Nat) : ∀ (s : GoString) (x : JSON × GoString),
    parseValue m s = some x → x.2.length < s.length := by
  induction m with
  | zero =>
    intro s x h
    cases s with
    | nil => rw [parseValue_nil] at h; simp at h
    | cons c r =>
      rw [parseValue_zero] at h
      split at h
      · simp at h
      · exact parseScalar_length _ _ h
  | succ m ih =>
    intro s x h
    cases s with
    | nil => rw [parseValue_nil] at h; simp at h
    | cons c r =>
      rw [parseValue_succ] at h
      split at h
      · split at h
        · rename_i r' hr
          have l := skipSpace_length r
          rw [hr] at l
          simp at h l
          rw [← h]
          simp
          omega
        · cases hp : parseMembers (parseValue m) r.length r with
          | none => simp [hp] at h
          | some q =>
            have := parseMembers_length _ ih _ _ _ hp
            simp [hp] at h
            rw [← h]
            simp
            omega
      · split at h
        · split at h
          · rename_i r' hr
            have l := skipSpace_length r
            rw [hr] at l
            simp at h l
            rw [← h]
            simp
            omega
          · cases hp : parseElems (parseValue m) r.length r with
            | none => simp [hp] at h
            | some q =>
              have := parseElems_length _ ih _ _ _ hp
              simp [hp] at h
              rw [← h]
              simp
              omega
        · exact parseScalar_length _ _ h

theorem parseElems_mono (pv pv' : GoString → Option (JSON × GoString))
    (hpv : ∀ t x, pv t = some x → x.2.length < t.length) (n : Nat) :
    ∀ (s : GoString) (y : List JSON × GoString),
      (∀ t x, t.length ≤ s.length → pv t = some x → pv' t = some x) →
      parseElems pv n s = some y → parseElems pv' n s = some y := by
  induction n with
  | zero => intro s y _ h; simp [parseElems] at h
  | succ n ih =>
    intro s y hag h
    simp only [parseElems] at h ⊢
    have l0 := skipSpace_length s
    cases hv : pv (skipSpace s) with
    | none => simp [hv] at h
    | some q =>
      obtain ⟨v, r⟩ := q
      have l1 := hpv _ _ hv
      have l2 := skipSpace_length r
      simp only at l1
      rw [hag _ _ l0 hv]
      rw [hv] at h
      simp only at h ⊢
      split at h
      · rename_i r' hr
        rw [hr] at l2
        simp at l2
        cases hs : parseElems pv n r' with
        | none => simp [hs] at h
        | some q =>
          rw [ih r' q (fun t x ht => hag t x (by omega)) hs]
          simpa [hs] using h
      · exact h
      · simp at h

theorem parseMembers_mono (pv pv' : GoString → Option (JSON × GoString))
    (hpv : ∀ t x, pv t = some x → x.2.length < t.length) (n : Nat) :
    ∀ (s : GoString) (y : List (GoString × JSON) × GoString),
      (∀ t x, t.length ≤ s.length → pv t = some x → pv' t = some x) →
      parseMembers pv n s = some y → parseMembers pv' n s = some y := by
  induction n with
  | zero => intro s y _ h; simp [parseMembers] at h
  | succ n ih =>
    intro s y hag h
    simp only [parseMembers] at h ⊢
    have l0 := skipSpace_length s
    split at h
    · rename_i r hr
      rw [hr] at l0
      simp at l0
      cases hs1 : scanString r with
      | none => simp [hs1] at h
      | some q1 =>
        obtain ⟨items, r1⟩ := q1
        have l1 := scanString_length _ _ _ hs1
        have l2 := skipSpace_length r1
        rw [hs1] at h
        simp only at h ⊢
        split at h
        · rename_i r2 hr2
          rw [hr2] at l2
          simp at l2
          have l3 := skipSpace_length r2
          cases hv : pv (skipSpace r2) with
          | none => simp [hv] at h
          | some q =>
            obtain ⟨v, r3⟩ := q
            have l4 := hpv _ _ hv
            have l5 := skipSpace_length r3
            simp only at l4
            rw [hag _ _ (by omega) hv]
            rw [hv] at h
            simp only at h ⊢
            split at h
            · rename_i r4 hr4
              rw [hr4] at l5
              simp at l5
              cases hs : parseMembers pv n r4 with
              | none => simp [hs] at h
              | some q =>
                rw [ih r4 q (fun t x ht => hag t x (by omega)) hs]
                simpa [hs] using h
            · exact h
            · simp at h
        · simp at h
    · simp at h

theorem parseElems_counter (pv : GoString → Option (JSON × GoString))
    (hpv : ∀ t x, pv t = some x → x.2.length < t.length) (n : Nat) :
    ∀ (s : GoString) (y : List JSON × GoString), parseElems pv n s = some y →
      ∀ k, s.length ≤ k → parseElems pv k s = some y := by
  induction n with
  | zero => intro s y h; simp [parseElems] at h
  | succ n ih =>
    intro s y h k hk
    simp only [parseElems] at h
    have l0 := skipSpace_length s
    cases hv : pv (skipSpace s) with
    | none => simp [hv] at h
    | some q =>
      obtain ⟨v, r⟩ := q
      have l1 := hpv _ _ hv
      have l2 := skipSpace_length r
      simp only at l1
      cases k with
      | zero => omega
      | succ k =>
        simp only [parseElems]
        rw [hv] at h ⊢
        simp only at h ⊢
        split at h
        · rename_i r' hr
          rw [hr] at l2
          simp at l2
          cases hs : parseElems pv n r' with
          | none => simp [hs] at h
          | some q =>
            rw [ih r' q hs k (by omega)]
            simpa [hs] using h
        · exact h
        · simp at h

theorem parseMembers_counter (pv : GoString → Option (JSON × GoString))
    (hpv : ∀ t x, pv t = some x → x.2.length < t.length) (n : Nat) :
    ∀ (s : GoString) (y : List (GoString × JSON) × GoString), parseMembers pv n s = some y →
      ∀ k, s.length ≤ k → parseMembers pv k s = some y := by
  induction n with
  | zero => intro s y h; simp [parseMembers] at h
  | succ n ih =>
    intro s y h k hk
    simp only [parseMembers] at h
    have l0 := skipSpace_length s
    split at h
    · rename_i r hr
      rw [hr] at l0
      simp at l0
      cases k with
      | zero => omega
      | succ k =>
        simp only [parseMembers, hr]
        cases hs1 : scanString r with
        | none => simp [hs1] at h
        | some q1 =>
          obtain ⟨items, r1⟩ := q1
          have l1 := scanString_length _ _ _ hs1
          have l2 := skipSpace_length r1
          rw [hs1] at h
          simp only at h ⊢
          split at h
          · rename_i r2 hr2
            rw [hr2] at l2
            simp at l2
            have l3 := skipSpace_length r2
            cases hv : pv (skipSpace r2) with
            | none => simp [hv] at h
            | some q =>
              obtain ⟨v, r3⟩ := q
              have l4 := hpv _ _ hv
              have l5 := skipSpace_length r3
              simp only at l4
              rw [hv] at h
              simp only at h ⊢
              split at h
              · rename_i r4 hr4
                rw [hr4] at l5
                simp at l5
                cases hs : parseMembers pv n r4 with
                | none => simp [hs] at h
                | some q =>
                  rw [ih r4 q hs k (by omega)]
                  simpa [hs] using h
              · exact h
              · simp at h
          · simp at h
    · simp at h

/-- The nesting bound only refuses: a value read within a bound is read, with the same
result, within every greater bound. -/
theorem parseValue_mono (m : Nat) : ∀ (s : GoString) (x : JSON × GoString),
    parseValue m s = some x → ∀ k, m ≤ k → parseValue k s = some x := by
  induction m with
  | zero =>
    intro s x h k _
    cases s with
    | nil => rw [parseValue_nil] at h; simp at h
    | cons c r =>
      rw [parseValue_zero] at h
      split at h
      · simp at h
      · rename_i hc
        simp only [not_or] at hc
        cases k with
        | zero => rw [parseValue_zero, if_neg (by simp [hc.1, hc.2])]; exact h
        | succ k => rw [parseValue_succ, if_neg hc.1, if_neg hc.2]; exact h
  | succ m ih =>
    intro s x h k hk
    cases s with
    | nil => rw [parseValue_nil] at h; simp at h
    | cons c r =>
      cases k with
      | zero => omega
      | succ k =>
        rw [parseValue_succ] at h ⊢
        split
        · rw [if_pos ‹_›] at h
          split at h
          · exact h
          · cases hp : parseMembers (parseValue m) r.length r with
            | none => simp [hp] at h
            | some q =>
              rw [parseMembers_mono _ (parseValue k) (parseValue_length m) _ _ q
                (fun t x _ hx => ih t x hx k (by omega)) hp]
              simpa [hp] using h
        · rw [if_neg ‹_›] at h
          split
          · rw [if_pos ‹_›] at h
            split at h
            · exact h
            · cases hp : parseElems (parseValue m) r.length r with
              | none => simp [hp] at h
              | some q =>
                rw [parseElems_mono _ (parseValue k) (parseValue_length m) _ _ q
                  (fun t x _ hx => ih t x hx k (by omega)) hp]
                simpa [hp] using h
          · rw [if_neg ‹_›] at h
            exact h

/-- Arrays opened deeper than the bound are refused, whatever follows them. -/
theorem parseValue_too_deep (n : Nat) : ∀ (d : Nat) (rest : GoString), n < d →
    parseValue n (List.replicate d '[' ++ rest) = none := by
  induction n with
  | zero =>
    intro d rest hd
    obtain ⟨d', rfl⟩ : ∃ d', d = d' + 1 := ⟨d - 1, by omega⟩
    rw [List.replicate_succ, List.cons_append, parseValue_zero]
    simp
  | succ n ih =>
    intro d rest hd
    obtain ⟨d', rfl⟩ : ∃ d', d = d' + 2 := ⟨d - 2, by omega⟩
    have hin : parseValue n (List.replicate (d' + 1) '[' ++ rest) = none :=
      ih (d' + 1) rest (by omega)
    have hskip : skipSpace (List.replicate (d' + 1) '[' ++ rest)
        = List.replicate (d' + 1) '[' ++ rest := by
      rw [List.replicate_succ, List.cons_append]
      rfl
    rw [List.replicate_succ, List.cons_append, parseValue_succ]
    have hne : ¬ ('[' = '{') := by decide
    rw [if_neg hne, if_pos rfl]
    have hel : parseElems (parseValue n) (List.replicate (d' + 1) '[' ++ rest).length
        (List.replicate (d' + 1) '[' ++ rest) = none := by
      cases (List.replicate (d' + 1) '[' ++ rest).length with
      | zero => rfl
      | succ k => simp only [parseElems, hskip, hin]
    rw [hel]
    rw [List.replicate_succ, List.cons_append] at hskip
    rw [List.replicate_succ, List.cons_append, hskip]
    rfl

/-- Arrays nested exactly as deep as the bound allows are read. -/
theorem parseValue_nested (n : Nat) : ∀ rest : GoString,
    parseValue (n + 1) (List.replicate (n + 1) '[' ++ List.replicate (n + 1) ']' ++ rest)
      = some (nestedArrays n, rest) := by
  induction n with
  | zero =>
    intro rest
    have e : List.replicate (0 + 1) '[' ++ List.replicate (0 + 1) ']' ++ rest
        = '[' :: ']' :: rest := rfl
    rw [e, parseValue_succ]
    rfl
  | succ n ih =>
    intro rest
    have e : List.replicate (n + 1 + 1) '[' ++ List.replicate (n + 1 + 1) ']' ++ rest
        = '[' :: (List.replicate (n + 1) '[' ++ List.replicate (n + 1) ']' ++ (']' :: rest)) := by
      rw [List.replicate_succ, List.replicate_succ' (n + 1) ']']
      simp
    have hskip : skipSpace (List.replicate (n + 1) '[' ++ List.replicate (n + 1) ']' ++ (']' :: rest))
        = List.replicate (n + 1) '[' ++ List.replicate (n + 1) ']' ++ (']' :: rest) := by
      rw [List.replicate_succ]
      rfl
    have hlen : (List.replicate (n + 1) '[' ++ List.replicate (n + 1) ']' ++ (']' :: rest)).length
        = (2 * n + 2 + rest.length) + 1 := by
      simp
      omega
    have hel : parseElems (parseValue (n + 1))
        (List.replicate (n + 1) '[' ++ List.replicate (n + 1) ']' ++ (']' :: rest)).length
        (List.replicate (n + 1) '[' ++ List.replicate (n + 1) ']' ++ (']' :: rest))
        = some ([nestedArrays n], rest) := by
      rw [hlen]
      simp only [parseElems, hskip, ih]
      rfl
    rw [e, parseValue_succ, if_neg (by decide), if_pos rfl, hel]
    rw [List.replicate_succ] at hskip ⊢
    rw [List.cons_append, List.cons_append] at hskip ⊢
    rw [hskip]
    rfl

/-- The bound is exact: arrays nested `maxNestingDepth` deep are read, one level more is
refused. -/
theorem readValue_at_max_depth (rest : GoString) :
    readValue (List.replicate maxNestingDepth '[' ++ List.replicate maxNestingDepth ']' ++ rest)
        = some (nestedArrays 9999, rest) ∧
    readValue (List.replicate (maxNestingDepth + 1) '[' ++ rest) = none := by
  constructor
  · have hskip : skipSpace
        (List.replicate maxNestingDepth '[' ++ List.replicate maxNestingDepth ']' ++ rest)
        = List.replicate (9999 + 1) '[' ++ List.replicate (9999 + 1) ']' ++ rest := by
      rw [show maxNestingDepth = 9999 + 1 from rfl, List.replicate_succ]
      rfl
    rw [readValue, hskip, show maxNestingDepth = 9999 + 1 from rfl]
    exact parseValue_nested 9999 rest
  · have hskip : skipSpace (List.replicate (maxNestingDepth + 1) '[' ++ rest)
        = List.replicate (maxNestingDepth + 1) '[' ++ rest := by
      rw [List.replicate_succ]
      rfl
    rw [readValue, hskip]
    exact parseValue_too_deep _ _ rest (Nat.lt_succ_self _)

/-- The member `"x":` followed by a value that cannot be read ends the object in an error. -/
theorem parseMembers_x_none (pv : GoString → Option (JSON × GoString)) (n : Nat)
    (T : GoString) (h : pv (skipSpace T) = none) :
    parseMembers pv n ('"' :: 'x' :: '"' :: ':' :: T) = none := by
  cases n with
  | zero => rfl
  | succ n =>
    have e1 : skipSpace ('"' :: 'x' :: '"' :: ':' :: T) = '"' :: 'x' :: '"' :: ':' :: T := rfl
    have e2 : scanString ('x' :: '"' :: ':' :: T) = some ([StrItem.ch 'x'], ':' :: T) := by
      simp [scanString.eq_def]
    have e3 : skipSpace (':' :: T) = ':' :: T := rfl
    simp only [parseMembers, e1, e2, e3, h]

/-- An object whose member `x` holds arrays nested to the bound or deeper is not read: the
object is one level, so the innermost array lies beyond the bound. -/
theorem readValue_exceeded_max_depth (d : Nat) (rest : GoString) (hd : maxNestingDepth ≤ d) :
    readValue ("\x7b\"state\":\"a\",\"x\":".toList ++ List.replicate d '[' ++ rest) = none := by
  have hdeep : parseValue 9999 (List.replicate d '[' ++ rest) = none :=
    parseValue_too_deep 9999 d rest (by simp [maxNestingDepth] at hd; omega)
  obtain ⟨d', rfl⟩ : ∃ d', d = d' + 1 := ⟨d - 1, by simp [maxNestingDepth] at hd; omega⟩
  have hskip : skipSpace (List.replicate (d' + 1) '[' ++ rest)
      = List.replicate (d' + 1) '[' ++ rest := by
    rw [List.replicate_succ, List.cons_append]
    rfl
  have hx : ∀ n, parseMembers (parseValue 9999) n
      ('"' :: 'x' :: '"' :: ':' :: (List.replicate (d' + 1) '[' ++ rest)) = none :=
    fun n => parseMembers_x_none _ n _ (by rw [hskip]; exact hdeep)
  have hstate : ∀ n T, (∀ k, parseMembers (parseValue 9999) k T = none) →
      parseMembers (parseValue 9999) n ("\"state\":\"a\",".toList ++ T) = none := by
    intro n T hT
    cases n with
    | zero => rfl
    | succ n =>
      have e1 : skipSpace ("\"state\":\"a\",".toList ++ T) = "\"state\":\"a\",".toList ++ T := rfl
      have e2 : scanString ("state\":\"a\",".toList ++ T)
          = some ([StrItem.ch 's', StrItem.ch 't', StrItem.ch 'a', StrItem.ch 't', StrItem.ch 'e'],
              ":\"a\",".toList ++ T) := by
        simp [scanString.eq_def]
      have e3 : skipSpace (":\"a\",".toList ++ T) = ":\"a\",".toList ++ T := rfl
      have e4 : skipSpace ("\"a\",".toList ++ T) = "\"a\",".toList ++ T := rfl
      have e5 : parseValue 9999 ("\"a\",".toList ++ T) = some (JSON.string ['a'], ',' :: T) := by
        have e : "\"a\",".toList ++ T = '"' :: 'a' :: '"' :: ',' :: T := rfl
        rw [e, show (9999 : Nat) = 9998 + 1 from rfl, parseValue_succ]
        simp [parseScalar, scanString.eq_def, unquote]
      have e6 : skipSpace (',' :: T) = ',' :: T := rfl
      have g : parseMembers (parseValue 9999) (n + 1) ('"' :: ("state\":\"a\",".toList ++ T))
          = none := by
        simp only [parseMembers]
        rw [show skipSpace ('"' :: ("state\":\"a\",".toList ++ T))
          = '"' :: ("state\":\"a\",".toList ++ T) from rfl]
        simp only [e2]
        rw [show skipSpace (":\"a\",".toList ++ T) = ':' :: ("\"a\",".toList ++ T) from rfl]
        simp only [e4, e5, e6, hT n, Option.map_none']
      exact g
  have e0 : skipSpace ("\x7b\"state\":\"a\",\"x\":".toList ++ List.replicate (d' + 1) '[' ++ rest)
      = '{' :: ("\"state\":\"a\",".toList ++
          ('"' :: 'x' :: '"' :: ':' :: (List.replicate (d' + 1) '[' ++ rest))) := by
    simp
    rfl
  rw [readValue, e0, show maxNestingDepth = 9999 + 1 from rfl, parseValue_succ, if_pos rfl]
  rw [show skipSpace ("\"state\":\"a\",".toList ++
      ('"' :: 'x' :: '"' :: ':' :: (List.replicate (d' + 1) '[' ++ rest)))
    = '"' :: ("state\":\"a\",".toList ++
      ('"' :: 'x' :: '"' :: ':' :: (List.replicate (d' + 1) '[' ++ rest))) from rfl]
  rw [hstate _ _ hx]
  rfl

/-- The decoder on such a value: the error of the reader, and the advertisement untouched. -/
theorem Decode_exceeded_max_depth (d : Nat) (rest : GoString) (advert : ClusterNodeAdvert)
    (hd : maxNestingDepth ≤ d) :
    Decode ("\x7b\"state\":\"a\",\"x\":".toList ++ List.replicate d '[' ++ rest) advert
      = (advert, some DecodeError.read) := by
  rw [Decode, readValue_exceeded_max_depth d rest hd]

/-! ## The decoder on the advertisements of the trace in the source -/

/-- The advertisement of a running master, as in the trace at the end of `main.go`. -/
theorem Decode_trace_running :
    Decode ("\x7b\"cell_guid\":\"54.159.121.202\",\"node_id\":\"54-159-121-202-5000\"," ++
        "\"state\":\"running\",\"role\":\"master\"\x7d").toList newAdvert
      = (⟨"54.159.121.202".toList, "54-159-121-202-5000".toList, "running".toList,
          "master".toList⟩, none) := by
  decide

/-- The advertisement without a role, as in the trace at the end of `main.go`: the role stays
empty. -/
theorem Decode_trace_no_role :
    Decode ("\x7b\"cell_guid\":\"54.159.121.202\",\"node_id\":\"54-159-121-202-5000\"," ++
        "\"state\":\"api-not-available\"\x7d").toList newAdvert
      = (⟨"54.159.121.202".toList, "54-159-121-202-5000".toList, "api-not-available".toList,
          []⟩, none) := by
  decide

/-! ## The regexp matcher -/

theorem matchHere_lits_append (w : GoString) (p : List RegexItem) (s : GoString) :
    matchHere (lits w ++ p) (w ++ s) = (matchHere p s).map fun r => (w ++ r.1, r.2) := by
  induction w with
  | nil => cases h : matchHere p s <;> simp [lits, h]
  | cons x w ih =>
    have e : matchHere (lits (x :: w) ++ p) (x :: w ++ s)
        = (matchHere (lits w ++ p) (w ++ s)).map fun r => (x :: r.1, r.2) := by
      simp [lits, matchHere]
    rw [e, ih]
    cases h : matchHere p s <;> simp

theorem matchHere_lits_cons (x : Char) (w : GoString) (p : List RegexItem) (y : Char)
    (t : GoString) :
    matchHere (lits (x :: w) ++ p) (y :: t)
      = if y = x then (matchHere (lits w ++ p) t).map fun r => (y :: r.1, r.2) else none :=
  rfl

theorem matchHere_lits_some (w : GoString) (p : List RegexItem) (s : GoString)
    (r : GoString × List GoString) (h : matchHere (lits w ++ p) s = some r) :
    ∃ t r', s = w ++ t ∧ matchHere p t = some r' ∧ r = (w ++ r'.1, r'.2) := by
  induction w generalizing s r with
  | nil => exact ⟨s, r, rfl, by simpa [lits] using h, rfl⟩
  | cons x w ih =>
    cases s with
    | nil => simp [lits, matchHere] at h
    | cons y t =>
      rw [matchHere_lits_cons] at h
      by_cases hxy : y = x
      · rw [if_pos hxy] at h
        cases h1 : matchHere (lits w ++ p) t with
        | none => simp [h1] at h
        | some r1 =>
          obtain ⟨t', r', ht, hm, hr⟩ := ih t r1 h1
          refine ⟨t', r', by rw [ht, hxy]; rfl, hm, ?_⟩
          simp [h1] at h
          rw [← h, hr, hxy]
          rfl
      · simp [hxy] at h

theorem starGreedy_some (k : GoString → Option (GoString × List GoString)) (s g m : GoString)
    (caps : List GoString) (h : starGreedy k s = some (g, m, caps)) :
    ∃ t, s = g ++ t ∧ '\n' ∉ g ∧ k t = some (m, caps) := by
  induction s generalizing g with
  | nil =>
    cases hk : k [] with
    | none => simp [starGreedy, hk] at h
    | some r =>
      simp [starGreedy, hk] at h
      obtain ⟨rfl, rfl, rfl⟩ := h
      exact ⟨[], rfl, by simp, hk⟩
  | cons x s ih =>
    have base : (k (x :: s)).map (fun r => (([] : GoString), r.1, r.2)) = some (g, m, caps) →
        ∃ t, x :: s = g ++ t ∧ '\n' ∉ g ∧ k t = some (m, caps) := by
      intro h'
      cases hk : k (x :: s) with
      | none => simp [hk] at h'
      | some r =>
        simp [hk] at h'
        obtain ⟨rfl, rfl, rfl⟩ := h'
        exact ⟨x :: s, rfl, by simp, hk⟩
    simp only [starGreedy] at h
    split at h
    · exact base h
    · rename_i hx
      split at h
      · rename_i g' m' caps' hs
        simp at h
        obtain ⟨rfl, rfl, rfl⟩ := h
        obtain ⟨t, ht, hg, hk⟩ := ih g' hs
        refine ⟨t, by rw [ht]; rfl, ?_, hk⟩
        simp only [List.mem_cons, not_or]
        exact ⟨fun e => hx e.symm, hg⟩
      · exact base h

theorem starGreedy_none (k : GoString → Option (GoString × List GoString)) (s : GoString)
    (h : ∀ g t, s = g ++ t → k t = none) : starGreedy k s = none := by
  induction s with
  | nil => simp [starGreedy, h [] [] rfl]
  | cons x s ih =>
    have hs : starGreedy k s = none :=
      ih fun g t e => h (x :: g) t (by rw [e]; rfl)
    simp [starGreedy, hs, h [] (x :: s) rfl]

theorem starGreedy_longest (k : GoString → Option (GoString × List GoString))
    (g t m : GoString) (caps : List GoString) (hg : '\n' ∉ g) (hk : k t = some (m, caps))
    (hlater : ∀ g' t', t = g' ++ t' → g' ≠ [] → k t' = none) :
    starGreedy k (g ++ t) = some (g, m, caps) := by
  induction g with
  | nil =>
    cases t with
    | nil => simp [starGreedy, hk]
    | cons x s =>
      have hs : starGreedy k s = none :=
        starGreedy_none k s fun g' t' e => hlater (x :: g') t' (by rw [e]; rfl) (by simp)
      simp [starGreedy, hs, hk]
  | cons y g ih =>
    simp only [List.mem_cons, not_or] at hg
    have hy : ¬ y = '\n' := fun e => hg.1 e.symm
    simp [starGreedy, hy, ih hg.2]

theorem starGreedy_isSome (k : GoString → Option (GoString × List GoString))
    (g t : GoString) (hg : '\n' ∉ g) (hk : (k t).isSome) :
    (starGreedy k (g ++ t)).isSome := by
  induction g with
  | nil =>
    obtain ⟨r, hr⟩ := Option.isSome_iff_exists.mp hk
    cases t with
    | nil => simp [starGreedy, hr]
    | cons x s =>
      simp only [List.nil_append, starGreedy]
      split
      · simp [hr]
      · split <;> simp [hr]
  | cons y g ih =>
    simp only [List.mem_cons, not_or] at hg
    have hy : ¬ y = '\n' := fun e => hg.1 e.symm
    obtain ⟨r, hr⟩ := Option.isSome_iff_exists.mp (ih hg.2)
    obtain ⟨g', m', caps'⟩ := r
    simp [starGreedy, hy, hr]

theorem node_eq :
    node = lits servicePrefix ++
      (RegexItem.dotStarGroup :: (lits nodesInfix ++ [RegexItem.dotStarGroup, RegexItem.endText])) := by
  simp [node]

theorem matchHere_group (p : List RegexItem) (s : GoString) :
    matchHere (RegexItem.dotStarGroup :: p) s
      = (starGreedy (matchHere p) s).map fun r => (r.1 ++ r.2.1, r.1 :: r.2.2) :=
  rfl

theorem matchHere_endText (s : GoString) :
    matchHere [RegexItem.endText] s = if s = [] then some ([], []) else none := by
  simp [matchHere]

theorem matchHere_lastGroup (n : GoString) (hn : '\n' ∉ n) :
    matchHere [RegexItem.dotStarGroup, RegexItem.endText] n = some (n, [n]) := by
  have h : starGreedy (matchHere [RegexItem.endText]) (n ++ []) = some (n, [], []) := by
    apply starGreedy_longest _ n [] [] [] hn
    · simp [matchHere]
    · intro g' t' e hg'
      have : g' = [] := by
        have := congrArg List.length e
        simp at this
        exact List.length_eq_zero.mp (by omega)
      exact absurd this hg'
  rw [List.append_nil] at h
  rw [matchHere_group, h]
  simp

theorem matchHere_lastGroup_some (s : GoString) (r : GoString × List GoString)
    (h : matchHere [RegexItem.dotStarGroup, RegexItem.endText] s = some r) :
    '\n' ∉ s ∧ r = (s, [s]) := by
  rw [matchHere_group] at h
  cases hs : starGreedy (matchHere [RegexItem.endText]) s with
  | none => simp [hs] at h
  | some q =>
    obtain ⟨g, m, caps⟩ := q
    obtain ⟨t, ht, hg, hk⟩ := starGreedy_some _ s g m caps hs
    rw [matchHere_endText] at hk
    by_cases ht0 : t = []
    · subst ht0
      simp at hk
      obtain ⟨rfl, rfl⟩ := hk
      simp at ht
      subst ht
      simp [hs] at h
      exact ⟨hg, h.symm⟩
    · simp [ht0] at hk

theorem count_slash_nodesInfix : List.count '/' nodesInfix = 2 := by decide

theorem count_slash_servicePrefix : List.count '/' servicePrefix = 2 := by decide

/-- The continuation of the first group matches at the `/nodes/` that a node without a slash
follows, and nowhere after it. -/
theorem matchHere_nodeTail (n : GoString) (hn : '\n' ∉ n) :
    matchHere (lits nodesInfix ++ [RegexItem.dotStarGroup, RegexItem.endText]) (nodesInfix ++ n)
      = some (nodesInfix ++ n, [n]) := by
  rw [matchHere_lits_append, matchHere_lastGroup n hn]
  rfl

theorem matchHere_nodeTail_later (n : GoString) (hs : '/' ∉ n) (g' t' : GoString)
    (e : nodesInfix ++ n = g' ++ t') (hg' : g' ≠ []) :
    matchHere (lits nodesInfix ++ [RegexItem.dotStarGroup, RegexItem.endText]) t' = none := by
  cases hm : matchHere (lits nodesInfix ++ [RegexItem.dotStarGroup, RegexItem.endText]) t' with
  | none => rfl
  | some r =>
    exfalso
    obtain ⟨t'', r', ht, -, -⟩ := matchHere_lits_some _ _ _ _ hm
    cases g' with
    | nil => exact hg' rfl
    | cons x g'' =>
      subst ht
      have hx : x = '/' := by
        simp [nodesInfix] at e
        exact e.1.symm
      have hc := congrArg (List.count '/') e
      simp only [List.count_append, List.count_cons, count_slash_nodesInfix,
        List.count_eq_zero.mpr hs, hx] at hc
      simp at hc
      omega

theorem matchHere_node_eq (c n : GoString) (hc : '\n' ∉ c) (hn : '\n' ∉ n) (hs : '/' ∉ n) :
    matchHere node (servicePrefix ++ c ++ nodesInfix ++ n)
      = some (servicePrefix ++ c ++ nodesInfix ++ n, [c, n]) := by
  have h := starGreedy_longest
    (matchHere (lits nodesInfix ++ [RegexItem.dotStarGroup, RegexItem.endText]))
    c (nodesInfix ++ n) (nodesInfix ++ n) [n] hc (matchHere_nodeTail n hn)
    (matchHere_nodeTail_later n hs)
  rw [node_eq, List.append_assoc, List.append_assoc, matchHere_lits_append, matchHere_group, h]
  simp

theorem matchHere_node_isSome (c n : GoString) (hc : '\n' ∉ c) (hn : '\n' ∉ n) :
    (matchHere node (servicePrefix ++ c ++ nodesInfix ++ n)).isSome := by
  have h := starGreedy_isSome
    (matchHere (lits nodesInfix ++ [RegexItem.dotStarGroup, RegexItem.endText]))
    c (nodesInfix ++ n) hc (by rw [matchHere_nodeTail n hn]; rfl)
  obtain ⟨q, hq⟩ := Option.isSome_iff_exists.mp h
  rw [node_eq, List.append_assoc, List.append_assoc, matchHere_lits_append, matchHere_group, hq]
  simp

theorem matchHere_node_some (t : GoString) (r : GoString × List GoString)
    (h : matchHere node t = some r) :
    ∃ c n, t = servicePrefix ++ c ++ nodesInfix ++ n ∧ '\n' ∉ c ∧ '\n' ∉ n ∧ r = (t, [c, n]) := by
  rw [node_eq] at h
  obtain ⟨t1, r1, ht1, h1, hr1⟩ := matchHere_lits_some _ _ _ _ h
  rw [matchHere_group] at h1
  cases hs : starGreedy
      (matchHere (lits nodesInfix ++ [RegexItem.dotStarGroup, RegexItem.endText])) t1 with
  | none => simp [hs] at h1
  | some q =>
    obtain ⟨c, m, caps⟩ := q
    obtain ⟨t2, ht2, hc, hk⟩ := starGreedy_some _ t1 c m caps hs
    obtain ⟨n, r3, ht3, h3, hr3⟩ := matchHere_lits_some _ _ _ _ hk
    obtain ⟨hn, hr3'⟩ := matchHere_lastGroup_some n r3 h3
    refine ⟨c, n, ?_, hc, hn, ?_⟩
    · rw [ht1, ht2, ht3]; simp
    · simp [hs] at h1
      rw [hr1, ← h1]
      simp only [Prod.mk.injEq] at hr3
      rw [hr3.1, hr3.2, hr3', ht1, ht2, ht3]

theorem findFrom_of_matchHere (re : List RegexItem) (s : GoString)
    (r : GoString × List GoString) (h : matchHere re s = some r) : findFrom re s = some r := by
  cases s with
  | nil => simpa [findFrom] using h
  | cons x s => simp [findFrom, h]

theorem findFrom_some (re : List RegexItem) (s : GoString) (r : GoString × List GoString)
    (h : findFrom re s = some r) : ∃ p t, s = p ++ t ∧ matchHere re t = some r := by
  induction s with
  | nil => exact ⟨[], [], rfl, by simpa [findFrom] using h⟩
  | cons x s ih =>
    simp only [findFrom] at h
    cases hm : matchHere re (x :: s) with
    | some q =>
      rw [hm] at h
      simp at h
      exact ⟨[], x :: s, rfl, by rw [hm, h]⟩
    | none =>
      rw [hm] at h
      obtain ⟨p, t, hs, ht⟩ := ih h
      exact ⟨x :: p, t, by rw [hs]; rfl, ht⟩

theorem findFrom_skip (re : List RegexItem) (p s : GoString)
    (h : ∀ p1 p2, p = p1 ++ p2 → p2 ≠ [] → matchHere re (p2 ++ s) = none) :
    findFrom re (p ++ s) = findFrom re s := by
  induction p with
  | nil => rfl
  | cons x p ih =>
    have h0 : matchHere re (x :: (p ++ s)) = none := h [] (x :: p) rfl (by simp)
    have ih' := ih fun p1 p2 e hp2 => h (x :: p1) p2 (by rw [e]; rfl) hp2
    simp [findFrom, h0, ih']

theorem findFrom_isSome (re : List RegexItem) (p t : GoString) (h : (matchHere re t).isSome) :
    (findFrom re (p ++ t)).isSome := by
  induction p with
  | nil =>
    obtain ⟨r, hr⟩ := Option.isSome_iff_exists.mp h
    simp [findFrom_of_matchHere re t r hr]
  | cons x p ih =>
    simp only [List.cons_append, findFrom]
    split
    · rfl
    · exact ih

theorem FindStringSubmatch_node_eq (c n : GoString) (hc : '\n' ∉ c) (hn : '\n' ∉ n)
    (hs : '/' ∉ n) :
    FindStringSubmatch node (servicePrefix ++ c ++ nodesInfix ++ n)
      = [servicePrefix ++ c ++ nodesInfix ++ n, c, n] := by
  rw [FindStringSubmatch, findFrom_of_matchHere _ _ _ (matchHere_node_eq c n hc hn hs)]

/-- What `FindStringSubmatch` returns for the key regexp: nil, or the three texts of a match
that starts at the leftmost `/service/` that can start one. -/
theorem FindStringSubmatch_node_cases (key : GoString) :
    FindStringSubmatch node key = [] ∨
    ∃ p c n, key = p ++ (servicePrefix ++ c ++ nodesInfix ++ n) ∧ '\n' ∉ c ∧ '\n' ∉ n ∧
      FindStringSubmatch node key = [servicePrefix ++ c ++ nodesInfix ++ n, c, n] := by
  cases h : findFrom node key with
  | none => left; simp [FindStringSubmatch, h]
  | some r =>
    right
    obtain ⟨p, t, hk, hm⟩ := findFrom_some _ _ _ h
    obtain ⟨c, n, ht, hc, hn, hr⟩ := matchHere_node_some t r hm
    refine ⟨p, c, n, by rw [hk, ht], hc, hn, ?_⟩
    simp [FindStringSubmatch, h, hr, ht]

/-! ## The loop body -/

theorem loopBody_unmatched (c : Cache) (resp : Response)
    (h : FindStringSubmatch node resp.Key = []) : loopBody c resp = [] := by
  simp [loopBody, h]

theorem loopBody_expire (c : Cache) (resp : Response) (w m1 m2 : GoString)
    (h : FindStringSubmatch node resp.Key = [w, m1, m2]) (ha : resp.Action = expire) :
    loopBody c resp
      = [Effect.spawn (publishMissing ⟨m1, m2, [], []⟩), Effect.delete resp.Key] := by
  simp [loopBody, h, ha]

theorem loopBody_upsert (c : Cache) (resp : Response) (w m1 m2 : GoString)
    (h : FindStringSubmatch node resp.Key = [w, m1, m2]) (ha : resp.Action ≠ expire) :
    loopBody c resp
      = Effect.store resp.Key (statusOf m1 m2 (Decode resp.Value newAdvert).1) ::
          (if c resp.Key = some (statusOf m1 m2 (Decode resp.Value newAdvert).1)
            then [] else [Effect.spawn (statusOf m1 m2 (Decode resp.Value newAdvert).1)]) := by
  simp only [loopBody, h, ha, if_false]
  cases hc : c resp.Key with
  | none => simp
  | some old =>
    by_cases ho : old = statusOf m1 m2 (Decode resp.Value newAdvert).1
    · simp [ho]
    · simp [ho]

theorem processEvent_unmatched (c : Cache) (resp : Response)
    (h : FindStringSubmatch node resp.Key = []) : processEvent c resp = (c, []) := by
  simp [processEvent, loopBody_unmatched c resp h, cacheAfter, dispatched]

theorem processEvent_expire (c : Cache) (resp : Response) (w m1 m2 : GoString)
    (h : FindStringSubmatch node resp.Key = [w, m1, m2]) (ha : resp.Action = expire) :
    processEvent c resp = (Function.update c resp.Key none, [⟨m1, m2, missing, []⟩]) := by
  simp [processEvent, loopBody_expire c resp w m1 m2 h ha, cacheAfter, dispatched, applyEffect,
    publishMissing]

theorem processEvent_upsert (c : Cache) (resp : Response) (w m1 m2 : GoString)
    (h : FindStringSubmatch node resp.Key = [w, m1, m2]) (ha : resp.Action ≠ expire) :
    processEvent c resp
      = (Function.update c resp.Key
            (some (statusOf m1 m2 (Decode resp.Value newAdvert).1)),
          if c resp.Key = some (statusOf m1 m2 (Decode resp.Value newAdvert).1)
            then [] else [statusOf m1 m2 (Decode resp.Value newAdvert).1]) := by
  rw [processEvent, loopBody_upsert c resp w m1 m2 h ha]
  split <;> simp [cacheAfter, dispatched, applyEffect]

theorem processEvent_cache_at (c : Cache) (resp : Response) (K : GoString) :
    (processEvent c resp).1 K
      = if resp.Key = K ∧ isMatched resp = true then
          (if resp.Action = expire then none else some (eventStatus resp))
        else c K := by
  rcases FindStringSubmatch_node_cases resp.Key with h | ⟨p, m1, m2, -, -, -, h⟩
  · rw [processEvent_unmatched c resp h]
    simp [isMatched, h]
  · by_cases ha : resp.Action = expire
    · rw [processEvent_expire c resp _ m1 m2 h ha]
      by_cases hk : resp.Key = K
      · subst hk
        simp [isMatched, h, ha]
      · simp [isMatched, h, ha, hk, Function.update, Ne.symm hk]
    · rw [processEvent_upsert c resp _ m1 m2 h ha]
      by_cases hk : resp.Key = K
      · subst hk
        simp [isMatched, h, ha, eventStatus]
      · simp [isMatched, h, ha, hk, Function.update, Ne.symm hk]

theorem watchLoop_cache_at (rs : List NextResult) (c : Cache) (K : GoString) :
    (watchLoop c rs).1 K
      = match (processed rs).reverse.find? fun e => decide (e.Key = K) && isMatched e with
        | none => c K
        | some e => if e.Action = expire then none else some (eventStatus e) := by
  induction rs generalizing c with
  | nil => simp [watchLoop, processed]
  | cons r rs ih =>
    cases r with
    | clusterError => simpa [watchLoop, processed] using ih c
    | otherError => simp [watchLoop, processed]
    | ok resp =>
      simp only [watchLoop, processed, List.reverse_cons, List.find?_append]
      rw [ih]
      cases hf : (processed rs).reverse.find? fun e => decide (e.Key = K) && isMatched e with
      | some e => simp
      | none =>
        rw [processEvent_cache_at]
        by_cases hk : resp.Key = K
        · by_cases hm : isMatched resp = true
          · simp [hk, hm]
          · simp [hk, hm]
        · simp [hk]

/-! ## Keys the regexp does not match -/

theorem append_slash_inj (a a' b b' : GoString) (ha : '/' ∉ a) (ha' : '/' ∉ a')
    (h : a ++ '/' :: b = a' ++ '/' :: b') : a = a' ∧ b = b' := by
  induction a generalizing a' with
  | nil =>
    cases a' with
    | nil => simpa using h
    | cons y a' =>
      simp at h
      simp [← h.1] at ha'
  | cons x a ih =>
    cases a' with
    | nil =>
      simp at h
      simp [h.1] at ha
    | cons y a' =>
      simp only [List.mem_cons, not_or] at ha ha'
      simp only [List.cons_append, List.cons.injEq] at h
      obtain ⟨e1, e2⟩ := ih a' ha.2 ha'.2 h.2
      exact ⟨by rw [h.1, e1], e2⟩

theorem count_slash_shape (p c n : GoString) :
    List.count '/' (p ++ (servicePrefix ++ c ++ nodesInfix ++ n))
      = List.count '/' p + List.count '/' c + List.count '/' n + 4 := by
  simp only [List.count_append, count_slash_servicePrefix, count_slash_nodesInfix]
  omega

/-- A key `/service/` cluster `/` rest, with no slash in the cluster and at most one in the
rest, is not matched unless the rest starts with `nodes/`. -/
theorem sibling_not_shape (cluster rest : GoString) (hc : '/' ∉ cluster)
    (hcount : List.count '/' rest ≤ 1) (hrest : ¬ nodesInfix.tail <+: rest) :
    ¬ ∃ p c n, servicePrefix ++ cluster ++ '/' :: rest
        = p ++ (servicePrefix ++ c ++ nodesInfix ++ n) ∧ '\n' ∉ c ∧ '\n' ∉ n := by
  rintro ⟨p, c, n, e, -, -⟩
  have hcnt := congrArg (List.count '/') e
  rw [count_slash_shape] at hcnt
  simp only [List.count_append, List.count_cons, count_slash_servicePrefix,
    List.count_eq_zero.mpr hc] at hcnt
  simp at hcnt
  have hp0 : List.count '/' p = 0 := by omega
  have hc0 : List.count '/' c = 0 := by omega
  have hp : p = [] := by
    cases p with
    | nil => rfl
    | cons y p =>
      have hy : y = '/' := by
        simp [servicePrefix] at e
        exact e.1.symm
      simp [hy] at hp0
  subst hp
  simp only [List.nil_append, List.append_assoc] at e
  have e' := List.append_cancel_left e
  have e'' : cluster ++ '/' :: rest = c ++ '/' :: (nodesInfix.tail ++ n) := by
    rw [e']; rfl
  obtain ⟨-, hr⟩ := append_slash_inj _ _ _ _ hc (List.count_eq_zero.mp hc0) e''
  exact hrest ⟨n, hr.symm⟩

theorem processEvent_not_shape (cache : Cache) (resp : Response)
    (hkey : ¬ ∃ p c n,
      resp.Key = p ++ (servicePrefix ++ c ++ nodesInfix ++ n) ∧ '\n' ∉ c ∧ '\n' ∉ n) :
    processEvent cache resp = (cache, []) := by
  apply processEvent_unmatched
  rcases FindStringSubmatch_node_cases resp.Key with h | ⟨p, c, n, hk, hc, hn, -⟩
  · exact h
  · exact absurd ⟨p, c, n, hk, hc, hn⟩ hkey

theorem Decode_read_error (value : GoString) (advert : ClusterNodeAdvert)
    (h : (Decode value advert).2 = some DecodeError.read) : (Decode value advert).1 = advert := by
  unfold Decode at h ⊢
  cases hr : readValue value with
  | none => rfl
  | some q =>
    obtain ⟨v, rest⟩ := q
    rw [hr] at h
    simp only at h
    cases v with
    | object ms =>
      simp only [unmarshal] at h
      split at h <;> simp at h
    | null => simp [unmarshal] at h
    | bool b => simp [unmarshal] at h
    | number => simp [unmarshal] at h
    | string str => simp [unmarshal] at h
    | array xs => simp [unmarshal] at h

theorem Decode_not_object (value : GoString) (advert : ClusterNodeAdvert) (v : JSON)
    (rest : GoString) (hr : readValue value = some (v, rest)) (hv : ∀ ms, v ≠ JSON.object ms) :
    (Decode value advert).1 = advert := by
  unfold Decode
  rw [hr]
  cases v with
  | object ms => exact absurd rfl (hv ms)
  | null => rfl
  | bool b => rfl
  | number => rfl
  | string str => rfl
  | array xs => rfl

/-- A text among `/service/` texts that starts a match must start with `/service/`; this
fails inside a root whose only `/service/` is at its end. -/
theorem matchHere_node_in_root (p p1 p2 s : GoString)
    (hfirst : ∀ a b, p ++ servicePrefix = a ++ servicePrefix ++ b → b = [])
    (hp : p = p1 ++ p2) (hp2 : p2 ≠ []) :
    matchHere node (p2 ++ (servicePrefix ++ s)) = none := by
  cases hm : matchHere node (p2 ++ (servicePrefix ++ s)) with
  | none => rfl
  | some r =>
    exfalso
    rw [node_eq] at hm
    obtain ⟨t, -, e, -, -⟩ := matchHere_lits_some _ _ _ _ hm
    rw [← List.append_assoc] at e
    rcases List.append_eq_append_iff.mp e with ⟨a', h1, -⟩ | ⟨c', h1, -⟩
    · have hl := congrArg List.length h1
      simp at hl
      exact hp2 (List.length_eq_zero.mp (by omega))
    · have hc' : c' = [] := hfirst p1 c' (by rw [hp, List.append_assoc, h1, List.append_assoc])
      subst hc'
      have hl := congrArg List.length h1
      simp at hl
      exact hp2 hl

theorem FindStringSubmatch_node_root (p c n : GoString)
    (hfirst : ∀ a b, p ++ servicePrefix = a ++ servicePrefix ++ b → b = [])
    (hc : '\n' ∉ c) (hn : '\n' ∉ n) (hs : '/' ∉ n) :
    FindStringSubmatch node (p ++ servicePrefix ++ c ++ nodesInfix ++ n)
      = [servicePrefix ++ c ++ nodesInfix ++ n, c, n] := by
  have e : p ++ servicePrefix ++ c ++ nodesInfix ++ n
      = p ++ (servicePrefix ++ (c ++ nodesInfix ++ n)) := by simp
  have e2 : servicePrefix ++ (c ++ nodesInfix ++ n) = servicePrefix ++ c ++ nodesInfix ++ n := by
    simp
  rw [FindStringSubmatch, e,
    findFrom_skip node p _ fun p1 p2 hp hp2 => matchHere_node_in_root p p1 p2 _ hfirst hp hp2,
    e2, findFrom_of_matchHere _ _ _ (matchHere_node_eq c n hc hn hs)]

/-- A root holds `/service/` at its end only, when no shorter start position shows it. -/
theorem servicePrefix_only_at_end (root : GoString)
    (h : ∀ i < root.length, i + servicePrefix.length < root.length →
      (root.drop i).take servicePrefix.length ≠ servicePrefix) :
    ∀ a b, root = a ++ servicePrefix ++ b → b = [] := by
  intro a b e
  by_contra hb
  have hlen : 0 < b.length := List.length_pos.mpr hb
  have hl : root.length = a.length + servicePrefix.length + b.length := by
    rw [e]; simp only [List.length_append]
  apply h a.length (by omega) (by omega)
  rw [e, List.append_assoc, List.drop_left, List.take_left]

theorem expire_absent (cache : Cache) (e : Response) (w m1 m2 : GoString)
    (h : FindStringSubmatch node e.Key = [w, m1, m2]) (ha : e.Action = expire) :
    (processEvent cache e).1 e.Key = none := by
  rw [processEvent_expire cache e w m1 m2 h ha]
  simp

theorem watchLoop_absent (rs : List NextResult) (c : Cache) (K : GoString) (hc : c K = none)
    (hno : ∀ r ∈ processed rs, r.Key = K → r.Action = expire) :
    (watchLoop c rs).1 K = none := by
  rw [watchLoop_cache_at]
  cases hf : (processed rs).reverse.find? fun e => decide (e.Key = K) && isMatched e with
  | none => exact hc
  | some e =>
    have hmem : e ∈ processed rs := List.mem_reverse.mp (List.mem_of_find?_eq_some hf)
    have hp := List.find?_some hf
    simp only [Bool.and_eq_true, decide_eq_true_eq] at hp
    simp [hno e hmem hp.1]

/-- The keys the loop acts on are exactly those that hold `/service/`, a text without line
feed, `/nodes/` and a text without line feed up to the end. -/
theorem isMatched_iff (resp : Response) :
    isMatched resp = true ↔
      ∃ p c n, resp.Key = p ++ (servicePrefix ++ c ++ nodesInfix ++ n) ∧ '\n' ∉ c ∧ '\n' ∉ n := by
  constructor
  · intro h
    rcases FindStringSubmatch_node_cases resp.Key with h0 | ⟨p, c, n, hk, hc, hn, -⟩
    · simp [isMatched, h0] at h
    · exact ⟨p, c, n, hk, hc, hn⟩
  · rintro ⟨p, c, n, hk, hc, hn⟩
    rcases FindStringSubmatch_node_cases resp.Key with h0 | ⟨_, _, _, _, _, _, h3⟩
    · have hsome := findFrom_isSome node p _ (matchHere_node_isSome c n hc hn)
      rw [← hk] at hsome
      obtain ⟨r, hr⟩ := Option.isSome_iff_exists.mp hsome
      simp [FindStringSubmatch, hr] at h0
    · simp [isMatched, h3]

/-! ## What the decoder leaves in the fields -/

theorem storeString_of_not_string (old : GoString) (v : JSON) (h : ∀ s, v ≠ JSON.string s) :
    (storeString old v).1 = old := by
  cases v with
  | string s => exact absurd rfl (h s)
  | null => rfl
  | bool b => rfl
  | number => rfl
  | array xs => rfl
  | object ms => rfl

theorem setField_get (a : ClusterNodeAdvert) (f f' : AdvertField) (v : JSON) :
    f'.get (setField a f v).1 = if f = f' then (storeString (f.get a) v).1 else f'.get a := by
  cases f <;> cases f' <;> rfl

theorem objectInto_append (acc : ClusterNodeAdvert × Bool) (l1 l2 : List (GoString × JSON)) :
    objectInto acc (l1 ++ l2) = objectInto (objectInto acc l1) l2 := by
  induction l1 generalizing acc with
  | nil => rfl
  | cons m l1 ih =>
    obtain ⟨a, e⟩ := acc
    obtain ⟨k, v⟩ := m
    simp only [List.cons_append, objectInto]
    split <;> exact ih _

/-- Members that are not a string for the field leave the field as it is. -/
theorem objectInto_get_unchanged (f : AdvertField) (ms : List (GoString × JSON)) :
    ∀ acc : ClusterNodeAdvert × Bool,
      (∀ m ∈ ms, findField m.1 = some f → ∀ s, m.2 ≠ JSON.string s) →
      f.get (objectInto acc ms).1 = f.get acc.1 := by
  induction ms with
  | nil => intro acc _; rfl
  | cons m ms ih =>
    intro acc h
    obtain ⟨a, e⟩ := acc
    obtain ⟨k, v⟩ := m
    have hrest : ∀ m ∈ ms, findField m.1 = some f → ∀ s, m.2 ≠ JSON.string s :=
      fun m hm => h m (List.mem_cons_of_mem _ hm)
    simp only [objectInto]
    cases hk : findField k with
    | none => exact ih _ hrest
    | some f0 =>
      simp only
      rw [ih _ hrest, setField_get]
      by_cases hf : f0 = f
      · rw [if_pos hf, hf]
        exact storeString_of_not_string _ _ (h (k, v) (List.mem_cons_self _ _) (by rw [hk, hf]))
      · rw [if_neg hf]

/-- A string member of the field that no later string member of the field follows is what the
field holds at the end, whatever the other members are. -/
theorem objectInto_get_kept (f : AdvertField) (acc : ClusterNodeAdvert × Bool)
    (pre post : List (GoString × JSON)) (k str : GoString)
    (hk : findField k = some f)
    (hpost : ∀ m ∈ post, findField m.1 = some f → ∀ s, m.2 ≠ JSON.string s) :
    f.get (objectInto acc (pre ++ (k, JSON.string str) :: post)).1 = str := by
  rw [objectInto_append]
  obtain ⟨a, e⟩ := objectInto acc pre
  simp only [objectInto, hk]
  rw [objectInto_get_unchanged f post _ hpost, setField_get, if_pos rfl]
  rfl

/-- The error flag is raised only by a member of a known field that is neither a string nor
`null`. -/
theorem objectInto_error (ms : List (GoString × JSON)) :
    ∀ acc : ClusterNodeAdvert × Bool, (objectInto acc ms).2 = true →
      acc.2 = true ∨
      ∃ m ∈ ms, (∃ f, findField m.1 = some f) ∧ (∀ s, m.2 ≠ JSON.string s) ∧ m.2 ≠ JSON.null := by
  induction ms with
  | nil => intro acc h; exact Or.inl h
  | cons m ms ih =>
    intro acc h
    obtain ⟨a, e⟩ := acc
    obtain ⟨k, v⟩ := m
    simp only [objectInto] at h
    cases hk : findField k with
    | none =>
      rw [hk] at h
      rcases ih _ h with h1 | ⟨m, hm, hp⟩
      · exact Or.inl h1
      · exact Or.inr ⟨m, List.mem_cons_of_mem _ hm, hp⟩
    | some f0 =>
      rw [hk] at h
      rcases ih _ h with h1 | ⟨m, hm, hp⟩
      · simp only [Bool.or_eq_true] at h1
        rcases h1 with h1 | h1
        · exact Or.inl h1
        · refine Or.inr ⟨(k, v), List.mem_cons_self _ _, ⟨f0, hk⟩, ?_, ?_⟩
          · intro s hs
            simp only at hs
            subst hs
            cases f0 <;> simp [setField, storeString] at h1
          · intro hs
            simp only at hs
            subst hs
            cases f0 <;> simp [setField, storeString] at h1
      · exact Or.inr ⟨m, List.mem_cons_of_mem _ hm, hp⟩

theorem Decode_object (value : GoString) (advert : ClusterNodeAdvert)
    (ms : List (GoString × JSON)) (rest : GoString)
    (hr : readValue value = some (JSON.object ms, rest)) :
    Decode value advert
      = ((objectInto (advert, false) ms).1,
          if (objectInto (advert, false) ms).2 then some DecodeError.unmarshalType else none) := by
  rw [Decode, hr]
  rfl

/-- The loop on a value nested beyond the bound, with the cache holding state `a` for the key:
the decoder fails, and the status with empty state and role replaces the entry and is
dispatched. -/
theorem processEvent_exceeded_max_depth (d : Nat) (rest : GoString)
    (hd : maxNestingDepth ≤ d) :
    processEvent
        (Function.update emptyCache "/service/c1/nodes/n1".toList
          (some ⟨"c1".toList, "n1".toList, "a".toList, []⟩))
        ⟨"set".toList, "/service/c1/nodes/n1".toList,
          "\x7b\"state\":\"a\",\"x\":".toList ++ List.replicate d '[' ++ rest⟩
      = (Function.update
            (Function.update emptyCache "/service/c1/nodes/n1".toList
              (some ⟨"c1".toList, "n1".toList, "a".toList, []⟩))
            "/service/c1/nodes/n1".toList (some ⟨"c1".toList, "n1".toList, [], []⟩),
          [⟨"c1".toList, "n1".toList, [], []⟩]) := by
  have hm : FindStringSubmatch node "/service/c1/nodes/n1".toList
      = ["/service/c1/nodes/n1".toList, "c1".toList, "n1".toList] := by decide
  have ha : "set".toList ≠ expire := by decide
  rw [processEvent_upsert _ _ "/service/c1/nodes/n1".toList "c1".toList "n1".toList hm ha]
  simp only [Decode_exceeded_max_depth d rest newAdvert hd]
  rw [if_neg (by decide)]
  rfl

/-! ## The claims -/

/-- C1 (upsert step). For every cache, every response whose key the regexp matches as
(cluster, node) and whose action is not `expire`: the status is made of the cluster, the node
and the state and role of the decoded advertisement; the cache entry of the key becomes that
status and every other entry is unchanged; exactly one notification carrying the status is
dispatched when the key had no entry or its entry differs from the status in one of the four
fields, and none when the entry equals the status. -/
theorem upsert_step (cache : Cache) (resp : Response) (w cluster nodeName : GoString)
    (hmatch : FindStringSubmatch node resp.Key = [w, cluster, nodeName])
    (haction : resp.Action ≠ expire) :
    (processEvent cache resp).1 resp.Key
        = some ⟨cluster, nodeName, (Decode resp.Value newAdvert).1.State,
            (Decode resp.Value newAdvert).1.Role⟩ ∧
    (∀ k, k ≠ resp.Key → (processEvent cache resp).1 k = cache k) ∧
    ((cache resp.Key = none ∨
        ∃ old, cache resp.Key = some old ∧
          (old.Cluster ≠ cluster ∨ old.Node ≠ nodeName ∨
            old.State ≠ (Decode resp.Value newAdvert).1.State ∨
            old.Role ≠ (Decode resp.Value newAdvert).1.Role)) →
      (processEvent cache resp).2
        = [⟨cluster, nodeName, (Decode resp.Value newAdvert).1.State,
            (Decode resp.Value newAdvert).1.Role⟩]) ∧
    (cache resp.Key
        = some ⟨cluster, nodeName, (Decode resp.Value newAdvert).1.State,
            (Decode resp.Value newAdvert).1.Role⟩ →
      (processEvent cache resp).2 = []) := by
  rw [processEvent_upsert cache resp w cluster nodeName hmatch haction]
  refine ⟨by simp [statusOf], fun k hk => by simp [Function.update, hk], ?_, ?_⟩
  · rintro (h | ⟨old, ho, hd⟩)
    · simp [h, statusOf]
    · have hne : old ≠ statusOf cluster nodeName (Decode resp.Value newAdvert).1 := by
        intro e
        rw [e] at hd
        simp [statusOf] at hd
      rw [ho, if_neg (by simpa using hne)]
      rfl
  · intro h
    simp [h, statusOf]

/-- C1, on a cache that holds an older status of the key: an event with action `delete` is
an upsert, replaces the entry and dispatches the new status. -/
theorem upsert_step_witness :
    FindStringSubmatch node "/service/c1/nodes/n1".toList
        = ["/service/c1/nodes/n1".toList, "c1".toList, "n1".toList] ∧
    "delete".toList ≠ expire ∧
    (processEvent
        (Function.update emptyCache "/service/c1/nodes/n1".toList
          (some ⟨"c1".toList, "n1".toList, "starting".toList, "replica".toList⟩))
        ⟨"delete".toList, "/service/c1/nodes/n1".toList,
          "\x7b\"state\":\"running\",\"role\":\"replica\"\x7d".toList⟩).2
      = [⟨"c1".toList, "n1".toList, "running".toList, "replica".toList⟩] :=
  ⟨by decide, by decide,
    ((upsert_step
        (Function.update emptyCache "/service/c1/nodes/n1".toList
          (some ⟨"c1".toList, "n1".toList, "starting".toList, "replica".toList⟩))
        ⟨"delete".toList, "/service/c1/nodes/n1".toList,
          "\x7b\"state\":\"running\",\"role\":\"replica\"\x7d".toList⟩
        "/service/c1/nodes/n1".toList "c1".toList "n1".toList
        (by decide) (by decide)).2.2.1
      (Or.inr ⟨⟨"c1".toList, "n1".toList, "starting".toList, "replica".toList⟩,
        by decide, Or.inr (Or.inr (Or.inl (by decide)))⟩)).trans (by decide)⟩

/-- C2 (expire step). For every cache, whatever it holds for the key, and every response
with action `expire` whose key the regexp matches as (cluster, node), whatever its value:
the key is removed from the cache, every other entry is unchanged, and exactly one
notification is dispatched, with the status cluster, node, `missing` and an empty role. -/
theorem expire_step (cache : Cache) (resp : Response) (w cluster nodeName : GoString)
    (hmatch : FindStringSubmatch node resp.Key = [w, cluster, nodeName])
    (haction : resp.Action = expire) :
    (processEvent cache resp).1 resp.Key = none ∧
    (∀ k, k ≠ resp.Key → (processEvent cache resp).1 k = cache k) ∧
    (processEvent cache resp).2 = [⟨cluster, nodeName, missing, []⟩] := by
  rw [processEvent_expire cache resp w cluster nodeName hmatch haction]
  exact ⟨by simp, fun k hk => by simp [Function.update, hk], rfl⟩

/-- C2, Scenario B: the cache holds c1, n1, running, master for `/service/c1/nodes/n1`; the
expire event of that key dispatches c1, n1, missing with an empty role and removes the key. -/
theorem expire_step_witness :
    FindStringSubmatch node "/service/c1/nodes/n1".toList
        = ["/service/c1/nodes/n1".toList, "c1".toList, "n1".toList] ∧
    (processEvent
        (Function.update emptyCache "/service/c1/nodes/n1".toList
          (some ⟨"c1".toList, "n1".toList, "running".toList, "master".toList⟩))
        ⟨"expire".toList, "/service/c1/nodes/n1".toList, []⟩).1 "/service/c1/nodes/n1".toList
      = none ∧
    (processEvent
        (Function.update emptyCache "/service/c1/nodes/n1".toList
          (some ⟨"c1".toList, "n1".toList, "running".toList, "master".toList⟩))
        ⟨"expire".toList, "/service/c1/nodes/n1".toList, []⟩).2
      = [⟨"c1".toList, "n1".toList, "missing".toList, []⟩] :=
  ⟨by decide,
    (expire_step
      (Function.update emptyCache "/service/c1/nodes/n1".toList
        (some ⟨"c1".toList, "n1".toList, "running".toList, "master".toList⟩))
      ⟨"expire".toList, "/service/c1/nodes/n1".toList, []⟩
      "/service/c1/nodes/n1".toList "c1".toList "n1".toList (by decide) (by decide)).1,
    (expire_step
      (Function.update emptyCache "/service/c1/nodes/n1".toList
        (some ⟨"c1".toList, "n1".toList, "running".toList, "master".toList⟩))
      ⟨"expire".toList, "/service/c1/nodes/n1".toList, []⟩
      "/service/c1/nodes/n1".toList "c1".toList "n1".toList (by decide) (by decide)).2.2⟩

/-- C3 (de-duplication). For every cache and every two consecutive upsert events of one
matched key that yield equal statuses: the second dispatches nothing and leaves the cache as
the first left it; when the key had no entry the first dispatches exactly once, so the two
dispatch one notification in total, and the entry at the end is that status. -/
theorem dedup_consecutive (cache : Cache) (e1 e2 : Response) (w cluster nodeName : GoString)
    (hmatch : FindStringSubmatch node e1.Key = [w, cluster, nodeName])
    (hkey : e2.Key = e1.Key) (h1 : e1.Action ≠ expire) (h2 : e2.Action ≠ expire)
    (heq : statusOf cluster nodeName (Decode e1.Value newAdvert).1
      = statusOf cluster nodeName (Decode e2.Value newAdvert).1) :
    (processEvent (processEvent cache e1).1 e2).2 = [] ∧
    (processEvent (processEvent cache e1).1 e2).1 = (processEvent cache e1).1 ∧
    (watchLoop cache [.ok e1, .ok e2]).1 e1.Key
      = some (statusOf cluster nodeName (Decode e1.Value newAdvert).1) ∧
    (cache e1.Key = none →
      (processEvent cache e1).2 = [statusOf cluster nodeName (Decode e1.Value newAdvert).1] ∧
      (watchLoop cache [.ok e1, .ok e2]).2
        = [statusOf cluster nodeName (Decode e1.Value newAdvert).1]) := by
  have hmatch2 : FindStringSubmatch node e2.Key = [w, cluster, nodeName] := by
    rw [hkey]; exact hmatch
  have hsecond : processEvent (processEvent cache e1).1 e2 = ((processEvent cache e1).1, []) := by
    rw [processEvent_upsert _ e2 w cluster nodeName hmatch2 h2,
      processEvent_upsert cache e1 w cluster nodeName hmatch h1, hkey, ← heq]
    simp
  refine ⟨by rw [hsecond], by rw [hsecond], ?_, ?_⟩
  · simp only [watchLoop, hsecond]
    rw [processEvent_upsert cache e1 w cluster nodeName hmatch h1]
    simp
  · intro hnone
    have hfirst : (processEvent cache e1).2
        = [statusOf cluster nodeName (Decode e1.Value newAdvert).1] := by
      rw [processEvent_upsert cache e1 w cluster nodeName hmatch h1, hnone]
      simp
    refine ⟨hfirst, ?_⟩
    simp only [watchLoop, hsecond, hfirst]
    rfl

/-- C3, Scenario A: the same `set` event of `/service/c1/nodes/n1` with state running and
role master twice, from the empty cache: one notification in total, and the entry at the end
is c1, n1, running, master. -/
theorem dedup_consecutive_witness :
    FindStringSubmatch node "/service/c1/nodes/n1".toList
        = ["/service/c1/nodes/n1".toList, "c1".toList, "n1".toList] ∧
    (watchLoop emptyCache
        [.ok ⟨"set".toList, "/service/c1/nodes/n1".toList,
            "\x7b\"state\":\"running\",\"role\":\"master\"\x7d".toList⟩,
          .ok ⟨"set".toList, "/service/c1/nodes/n1".toList,
            "\x7b\"state\":\"running\",\"role\":\"master\"\x7d".toList⟩]).2
      = [⟨"c1".toList, "n1".toList, "running".toList, "master".toList⟩] ∧
    (watchLoop emptyCache
        [.ok ⟨"set".toList, "/service/c1/nodes/n1".toList,
            "\x7b\"state\":\"running\",\"role\":\"master\"\x7d".toList⟩,
          .ok ⟨"set".toList, "/service/c1/nodes/n1".toList,
            "\x7b\"state\":\"running\",\"role\":\"master\"\x7d".toList⟩]).1
        "/service/c1/nodes/n1".toList
      = some ⟨"c1".toList, "n1".toList, "running".toList, "master".toList⟩ :=
  ⟨by decide,
    ((dedup_consecutive emptyCache
        ⟨"set".toList, "/service/c1/nodes/n1".toList,
          "\x7b\"state\":\"running\",\"role\":\"master\"\x7d".toList⟩
        ⟨"set".toList, "/service/c1/nodes/n1".toList,
          "\x7b\"state\":\"running\",\"role\":\"master\"\x7d".toList⟩
        "/service/c1/nodes/n1".toList "c1".toList "n1".toList
        (by decide) rfl (by decide) (by decide) rfl).2.2.2 rfl).2.trans (by decide),
    (dedup_consecutive emptyCache
        ⟨"set".toList, "/service/c1/nodes/n1".toList,
          "\x7b\"state\":\"running\",\"role\":\"master\"\x7d".toList⟩
        ⟨"set".toList, "/service/c1/nodes/n1".toList,
          "\x7b\"state\":\"running\",\"role\":\"master\"\x7d".toList⟩
        "/service/c1/nodes/n1".toList "c1".toList "n1".toList
        (by decide) rfl (by decide) (by decide) rfl).2.2.1.trans (by decide)⟩

/-- C5 (key parser extraction). For every cluster and node text without a slash and without
a line feed, the key `/service/` cluster `/nodes/` node is matched, and the groups are
exactly the cluster and the node. -/
theorem key_parser_extraction (cluster nodeName : GoString)
    (hc : '/' ∉ cluster ∧ '\n' ∉ cluster) (hn : '/' ∉ nodeName ∧ '\n' ∉ nodeName) :
    FindStringSubmatch node (servicePrefix ++ cluster ++ nodesInfix ++ nodeName)
      = [servicePrefix ++ cluster ++ nodesInfix ++ nodeName, cluster, nodeName] :=
  FindStringSubmatch_node_eq cluster nodeName hc.2 hn.2 hn.1

/-- C5, the key of the trace in the source: `/service/dingo-test-5/nodes/54-159-121-202-5000`
yields dingo-test-5 and 54-159-121-202-5000. -/
theorem key_parser_extraction_witness :
    ('/' ∉ "dingo-test-5".toList ∧ '\n' ∉ "dingo-test-5".toList) ∧
    ('/' ∉ "54-159-121-202-5000".toList ∧ '\n' ∉ "54-159-121-202-5000".toList) ∧
    FindStringSubmatch node "/service/dingo-test-5/nodes/54-159-121-202-5000".toList
      = ["/service/dingo-test-5/nodes/54-159-121-202-5000".toList, "dingo-test-5".toList,
          "54-159-121-202-5000".toList] :=
  ⟨by decide, by decide,
    key_parser_extraction "dingo-test-5".toList "54-159-121-202-5000".toList
      (by decide) (by decide)⟩

/-- C7 (the cache reflects the last processed event). After the loop has processed any finite
sequence of results from the empty cache, for every key: the entry is that of the most
recent processed response with this key that the regexp matched, namely the status computed
from it when it is an upsert, and no entry when it is an expire; there is no entry either
when no matched response with this key was processed. -/
theorem cache_reflects_last_event (rs : List NextResult) (K : GoString) :
    (watchLoop emptyCache rs).1 K
      = match (processed rs).reverse.find? fun e => decide (e.Key = K) && isMatched e with
        | none => none
        | some e => if e.Action = expire then none else some (eventStatus e) := by
  rw [watchLoop_cache_at]
  rfl

/-- C4, as stated, fails: the regexp is not anchored at the start of the key and its groups
take slashes. The key `/x/service/c1/nodes/n1` does not start with `/service/`, and the key
`/service/c1/members/nodes/n1` has no cluster segment before `/nodes/` (it lies in the
members sub-tree); both are matched, written to the cache and notified. -/
theorem unmatched_key_counterexample :
    (¬ ∃ c n, "/x/service/c1/nodes/n1".toList = servicePrefix ++ c ++ nodesInfix ++ n) ∧
    (processEvent emptyCache
        ⟨"set".toList, "/x/service/c1/nodes/n1".toList,
          "\x7b\"state\":\"running\",\"role\":\"master\"\x7d".toList⟩).2
      = [⟨"c1".toList, "n1".toList, "running".toList, "master".toList⟩] ∧
    (processEvent emptyCache
        ⟨"set".toList, "/x/service/c1/nodes/n1".toList,
          "\x7b\"state\":\"running\",\"role\":\"master\"\x7d".toList⟩).1
        "/x/service/c1/nodes/n1".toList
      = some ⟨"c1".toList, "n1".toList, "running".toList, "master".toList⟩ ∧
    (¬ ∃ c n, '/' ∉ c ∧
      "/service/c1/members/nodes/n1".toList = servicePrefix ++ c ++ nodesInfix ++ n) ∧
    (processEvent emptyCache
        ⟨"set".toList, "/service/c1/members/nodes/n1".toList,
          "\x7b\"state\":\"running\",\"role\":\"master\"\x7d".toList⟩).2
      = [⟨"c1/members".toList, "n1".toList, "running".toList, "master".toList⟩] := by
  refine ⟨?_, by decide, by decide, ?_, by decide⟩
  · rintro ⟨c, n, h⟩
    have h2 : ("/x/service/c1/nodes/n1".toList).tail.head?
        = (servicePrefix ++ c ++ nodesInfix ++ n).tail.head? := by
      rw [h]
    simp [servicePrefix] at h2
  · rintro ⟨c, n, hc, h⟩
    have e : ("c1".toList) ++ '/' :: "members/nodes/n1".toList
        = c ++ '/' :: (nodesInfix.tail ++ n) := by
      have h1 : servicePrefix ++ (("c1".toList) ++ '/' :: "members/nodes/n1".toList)
          = servicePrefix ++ (c ++ '/' :: (nodesInfix.tail ++ n)) := by
        rw [show servicePrefix ++ (c ++ '/' :: (nodesInfix.tail ++ n))
          = servicePrefix ++ c ++ nodesInfix ++ n by simp [nodesInfix], ← h]
        decide
      exact List.append_cancel_left h1
    obtain ⟨-, hr⟩ := append_slash_inj _ _ _ _ (by decide) hc e
    have h3 := congrArg List.head? hr
    simp [nodesInfix] at h3

/-- C4, amended. For every cache and every response whose key holds no `/service/` followed
by a text without line feed, `/nodes/` and a text without line feed up to the end of the
key (whatever stands before `/service/`, and slashes allowed in both texts), processing the
response leaves the cache unchanged and dispatches nothing. In particular, for a cluster and
a name without a slash, the sibling keys leader, members, config and optime/leader of the
cluster are ignored, whatever the action and the value. -/
theorem unmatched_key_ignored (cache : Cache) (resp : Response) (cluster x : GoString)
    (hc : '/' ∉ cluster) (hx : '/' ∉ x) :
    ((¬ ∃ p c n,
        resp.Key = p ++ (servicePrefix ++ c ++ nodesInfix ++ n) ∧ '\n' ∉ c ∧ '\n' ∉ n) →
      processEvent cache resp = (cache, [])) ∧
    processEvent cache ⟨resp.Action, servicePrefix ++ cluster ++ "/leader".toList, resp.Value⟩
      = (cache, []) ∧
    processEvent cache
        ⟨resp.Action, servicePrefix ++ cluster ++ "/members/".toList ++ x, resp.Value⟩
      = (cache, []) ∧
    processEvent cache ⟨resp.Action, servicePrefix ++ cluster ++ "/config".toList, resp.Value⟩
      = (cache, []) ∧
    processEvent cache
        ⟨resp.Action, servicePrefix ++ cluster ++ "/optime/leader".toList, resp.Value⟩
      = (cache, []) := by
  refine ⟨processEvent_not_shape cache resp, ?_, ?_, ?_, ?_⟩
  · apply processEvent_not_shape
    exact sibling_not_shape cluster "leader".toList hc (by decide) (by decide)
  · apply processEvent_not_shape
    have h := sibling_not_shape cluster ("members/".toList ++ x) hc
      (by
        rw [List.count_append, List.count_eq_zero.mpr hx]
        decide)
      (by
        rintro ⟨t, ht⟩
        have h3 := congrArg List.head? ht
        simp [nodesInfix] at h3)
    simpa using h
  · apply processEvent_not_shape
    exact sibling_not_shape cluster "config".toList hc (by decide) (by decide)
  · apply processEvent_not_shape
    exact sibling_not_shape cluster "optime/leader".toList hc (by decide) (by decide)

/-- C4, amended, on the leader key of cluster c1: it is not matched, and a `set` on it
leaves the cache as it is and dispatches nothing. -/
theorem unmatched_key_ignored_witness :
    '/' ∉ "c1".toList ∧ '/' ∉ "m1".toList ∧
    processEvent emptyCache ⟨"set".toList, "/service/c1/leader".toList, "n1".toList⟩
      = (emptyCache, []) ∧
    processEvent emptyCache ⟨"set".toList, "/service/c1/members/m1".toList, "n1".toList⟩
      = (emptyCache, []) :=
  ⟨by decide, by decide,
    (unmatched_key_ignored emptyCache
      ⟨"set".toList, "/service/c1/leader".toList, "n1".toList⟩ "c1".toList "m1".toList
      (by decide) (by decide)).1
      (sibling_not_shape "c1".toList "leader".toList (by decide) (by decide) (by decide)),
    (unmatched_key_ignored emptyCache
      ⟨"set".toList, "/service/c1/leader".toList, "n1".toList⟩ "c1".toList "m1".toList
      (by decide) (by decide)).2.2.1⟩

/-- C6, as stated, fails: the decoder returns an error for a member of the wrong type after it
has stored the members before it. The value with state running and the number 5 as role
fails to decode, and the status cached and dispatched has the state running. -/
theorem decode_failure_counterexample :
    (Decode "\x7b\"state\":\"running\",\"role\":5\x7d".toList newAdvert).2
      = some DecodeError.unmarshalType ∧
    (processEvent emptyCache
        ⟨"create".toList, "/service/c2/nodes/n9".toList,
          "\x7b\"state\":\"running\",\"role\":5\x7d".toList⟩).2
      = [⟨"c2".toList, "n9".toList, "running".toList, []⟩] ∧
    (processEvent emptyCache
        ⟨"create".toList, "/service/c2/nodes/n9".toList,
          "\x7b\"state\":\"running\",\"role\":5\x7d".toList⟩).1 "/service/c2/nodes/n9".toList
      = some ⟨"c2".toList, "n9".toList, "running".toList, []⟩ := by
  refine ⟨by decide, by decide, by decide⟩

/-- C6, amended. For every matched upsert event whose value fails to decode, the status that
is compared, cached and (if changed) dispatched has the cluster and node of the key and the
state and role the decoder left in the advertisement, and the cache holds an entry for the
key afterwards. The state and role are empty when the value could not be read as a JSON
value (a syntax error, nesting beyond the bound, or an input that ends early) and when the
value read is not an object. When the value read is an object, the error is an
`UnmarshalTypeError` raised by a member of a known field that is neither a string nor `null`,
and the members that did decode are kept: the state (the role) is the last string member of
the state (the role), whatever the other members are, and is empty when there is none. An
object with state `a` and a member holding arrays nested to the bound or deeper is a value
that cannot be read: state and role are empty. -/
theorem decode_failure_status (cache : Cache) (resp : Response) (w cluster nodeName : GoString)
    (hmatch : FindStringSubmatch node resp.Key = [w, cluster, nodeName])
    (haction : resp.Action ≠ expire) (herr : (Decode resp.Value newAdvert).2 ≠ none) :
    (processEvent cache resp).1 resp.Key
        = some ⟨cluster, nodeName, (Decode resp.Value newAdvert).1.State,
            (Decode resp.Value newAdvert).1.Role⟩ ∧
    (processEvent cache resp).2
        = (if cache resp.Key
              = some ⟨cluster, nodeName, (Decode resp.Value newAdvert).1.State,
                  (Decode resp.Value newAdvert).1.Role⟩
            then []
            else [⟨cluster, nodeName, (Decode resp.Value newAdvert).1.State,
                    (Decode resp.Value newAdvert).1.Role⟩]) ∧
    ((Decode resp.Value newAdvert).2 = some DecodeError.read →
      (Decode resp.Value newAdvert).1.State = [] ∧ (Decode resp.Value newAdvert).1.Role = []) ∧
    (∀ v rest, readValue resp.Value = some (v, rest) → (∀ ms, v ≠ JSON.object ms) →
      (Decode resp.Value newAdvert).1.State = [] ∧ (Decode resp.Value newAdvert).1.Role = []) ∧
    ((Decode resp.Value newAdvert).2 = some DecodeError.read ∨
      (Decode resp.Value newAdvert).2 = some DecodeError.unmarshalType) ∧
    (∀ ms rest, readValue resp.Value = some (JSON.object ms, rest) →
      (Decode resp.Value newAdvert).2 = some DecodeError.unmarshalType ∧
      (∃ m ∈ ms, (∃ f, findField m.1 = some f) ∧ (∀ s, m.2 ≠ JSON.string s) ∧
        m.2 ≠ JSON.null) ∧
      (∀ pre k str post, ms = pre ++ (k, JSON.string str) :: post →
        findField k = some AdvertField.state →
        (∀ m ∈ post, findField m.1 = some AdvertField.state → ∀ s, m.2 ≠ JSON.string s) →
        (Decode resp.Value newAdvert).1.State = str) ∧
      (∀ pre k str post, ms = pre ++ (k, JSON.string str) :: post →
        findField k = some AdvertField.role →
        (∀ m ∈ post, findField m.1 = some AdvertField.role → ∀ s, m.2 ≠ JSON.string s) →
        (Decode resp.Value newAdvert).1.Role = str) ∧
      ((∀ m ∈ ms, findField m.1 = some AdvertField.state → ∀ s, m.2 ≠ JSON.string s) →
        (Decode resp.Value newAdvert).1.State = []) ∧
      ((∀ m ∈ ms, findField m.1 = some AdvertField.role → ∀ s, m.2 ≠ JSON.string s) →
        (Decode resp.Value newAdvert).1.Role = [])) ∧
    (∀ d rest, maxNestingDepth ≤ d →
      resp.Value = "\x7b\"state\":\"a\",\"x\":".toList ++ List.replicate d '[' ++ rest →
      (Decode resp.Value newAdvert).2 = some DecodeError.read ∧
      (Decode resp.Value newAdvert).1.State = [] ∧ (Decode resp.Value newAdvert).1.Role = []) := by
  rw [processEvent_upsert cache resp w cluster nodeName hmatch haction]
  refine ⟨by simp [statusOf], rfl, ?_, ?_, ?_, ?_, ?_⟩
  rotate_right
  · intro d rest hd hv
    rw [hv, Decode_exceeded_max_depth d rest newAdvert hd]
    exact ⟨rfl, rfl, rfl⟩
  · intro h
    rw [Decode_read_error _ _ h]
    exact ⟨rfl, rfl⟩
  · intro v rest hr hv
    rw [Decode_not_object _ _ v rest hr hv]
    exact ⟨rfl, rfl⟩
  · cases h : (Decode resp.Value newAdvert).2 with
    | none => exact absurd h herr
    | some e => cases e <;> simp
  · intro ms rest hr
    have hd := Decode_object resp.Value newAdvert ms rest hr
    have hflag : (objectInto (newAdvert, false) ms).2 = true := by
      by_contra hf
      rw [hd] at herr
      simp [hf] at herr
    refine ⟨by rw [hd]; simp [hflag], ?_, ?_, ?_, ?_, ?_⟩
    · rcases objectInto_error ms _ hflag with h0 | h1
      · simp at h0
      · exact h1
    · intro pre k str post hms hk hpost
      rw [hd, hms]
      exact objectInto_get_kept AdvertField.state _ pre post k str hk hpost
    · intro pre k str post hms hk hpost
      rw [hd, hms]
      exact objectInto_get_kept AdvertField.role _ pre post k str hk hpost
    · intro hno
      rw [hd]
      exact objectInto_get_unchanged AdvertField.state ms _ hno
    · intro hno
      rw [hd]
      exact objectInto_get_unchanged AdvertField.role ms _ hno

/-- C6, amended, Scenario C: the `create` event of `/service/c2/nodes/n9` with the value
`not-json`, on a fresh key, dispatches c2, n9 with empty state and role and caches it. And on
the value with state running and the number 5 as role, which fails to decode, the state
member is kept: the state is running. -/
theorem decode_failure_status_witness :
    FindStringSubmatch node "/service/c2/nodes/n9".toList
        = ["/service/c2/nodes/n9".toList, "c2".toList, "n9".toList] ∧
    (Decode "not-json".toList newAdvert).2 = some DecodeError.read ∧
    (processEvent emptyCache
        ⟨"create".toList, "/service/c2/nodes/n9".toList, "not-json".toList⟩).2
      = [⟨"c2".toList, "n9".toList, [], []⟩] ∧
    (processEvent emptyCache
        ⟨"create".toList, "/service/c2/nodes/n9".toList, "not-json".toList⟩).1
        "/service/c2/nodes/n9".toList
      = some ⟨"c2".toList, "n9".toList, [], []⟩ ∧
    (Decode "\x7b\"state\":\"running\",\"role\":5\x7d".toList newAdvert).2 ≠ none ∧
    (Decode "\x7b\"state\":\"running\",\"role\":5\x7d".toList newAdvert).1.State
      = "running".toList :=
  ⟨by decide, by decide,
    (decode_failure_status emptyCache
      ⟨"create".toList, "/service/c2/nodes/n9".toList, "not-json".toList⟩
      "/service/c2/nodes/n9".toList "c2".toList "n9".toList
      (by decide) (by decide) (by decide)).2.1.trans (by decide),
    (decode_failure_status emptyCache
      ⟨"create".toList, "/service/c2/nodes/n9".toList, "not-json".toList⟩
      "/service/c2/nodes/n9".toList "c2".toList "n9".toList
      (by decide) (by decide) (by decide)).1.trans (by decide),
    by decide,
    ((decode_failure_status emptyCache
      ⟨"create".toList, "/service/c2/nodes/n9".toList,
        "\x7b\"state\":\"running\",\"role\":5\x7d".toList⟩
      "/service/c2/nodes/n9".toList "c2".toList "n9".toList
      (by decide) (by decide) (by decide)).2.2.2.2.2.1
      [("state".toList, JSON.string "running".toList), ("role".toList, JSON.number)] []
      rfl).2.2.1 [] "state".toList "running".toList [("role".toList, JSON.number)] rfl
      (by decide)
      (fun m hm hf s => by
        rw [List.mem_singleton] at hm
        subst hm
        exact absurd hf (by decide))⟩

/-- C8, as stated, fails: the regexp holds the fixed text `/service/`, not the configured
root. With the root `/foo/` the key `/foo/c1/nodes/n1` is not matched and its events are
ignored; and under the default root a cluster with a line feed is not matched. -/
theorem configured_root_counterexample :
    watcherRootPath "/foo/".toList = "/foo/".toList ∧
    FindStringSubmatch node
        (watcherRootPath "/foo/".toList ++ "c1".toList ++ nodesInfix ++ "n1".toList) = [] ∧
    loopBody emptyCache
        ⟨"set".toList, watcherRootPath "/foo/".toList ++ "c1".toList ++ nodesInfix ++ "n1".toList,
          "\x7b\"state\":\"running\",\"role\":\"master\"\x7d".toList⟩ = [] ∧
    loopBody emptyCache
        ⟨"expire".toList,
          watcherRootPath "/foo/".toList ++ "c1".toList ++ nodesInfix ++ "n1".toList, []⟩ = [] ∧
    '/' ∉ "a\nb".toList ∧
    FindStringSubmatch node
        (watcherRootPath [] ++ "a\nb".toList ++ nodesInfix ++ "n1".toList) = [] := by
  refine ⟨by decide, by decide, by decide, by decide, by decide, by decide⟩

/-- C8, amended. The regexp looks for the fixed text `/service/` whatever the configured
root. For every configured root that ends in `/service/` and holds no other `/service/`
(the default root among them), and every cluster and node without a slash and without a
line feed, the key root, cluster, `/nodes/`, node is matched with the cluster and the node
as groups, and the response is processed as an expire when its action is `expire` and as an
upsert otherwise. -/
theorem configured_root (env p cluster nodeName : GoString) (cache : Cache)
    (action value : GoString)
    (hroot : watcherRootPath env = p ++ servicePrefix)
    (hfirst : ∀ a b, watcherRootPath env = a ++ servicePrefix ++ b → b = [])
    (hc : '/' ∉ cluster ∧ '\n' ∉ cluster) (hn : '/' ∉ nodeName ∧ '\n' ∉ nodeName) :
    FindStringSubmatch node (watcherRootPath env ++ cluster ++ nodesInfix ++ nodeName)
      = [servicePrefix ++ cluster ++ nodesInfix ++ nodeName, cluster, nodeName] ∧
    loopBody cache ⟨action, watcherRootPath env ++ cluster ++ nodesInfix ++ nodeName, value⟩
      = (if action = expire then
          [Effect.spawn ⟨cluster, nodeName, missing, []⟩,
            Effect.delete (watcherRootPath env ++ cluster ++ nodesInfix ++ nodeName)]
        else
          Effect.store (watcherRootPath env ++ cluster ++ nodesInfix ++ nodeName)
              ⟨cluster, nodeName, (Decode value newAdvert).1.State,
                (Decode value newAdvert).1.Role⟩ ::
            (if cache (watcherRootPath env ++ cluster ++ nodesInfix ++ nodeName)
                = some ⟨cluster, nodeName, (Decode value newAdvert).1.State,
                    (Decode value newAdvert).1.Role⟩
              then []
              else [Effect.spawn ⟨cluster, nodeName, (Decode value newAdvert).1.State,
                      (Decode value newAdvert).1.Role⟩])) := by
  have hm : FindStringSubmatch node (watcherRootPath env ++ cluster ++ nodesInfix ++ nodeName)
      = [servicePrefix ++ cluster ++ nodesInfix ++ nodeName, cluster, nodeName] := by
    rw [hroot]
    exact FindStringSubmatch_node_root p cluster nodeName (fun a b e => hfirst a b (hroot.trans e))
      hc.2 hn.2 hn.1
  refine ⟨hm, ?_⟩
  by_cases ha : action = expire
  · rw [loopBody_expire cache _ _ cluster nodeName hm ha, if_pos ha]
    rfl
  · rw [loopBody_upsert cache _ _ cluster nodeName hm ha, if_neg ha]
    rfl

/-- C8, amended, on the root `/dingo/service/`: the key `/dingo/service/c1/nodes/n1` is
matched as c1 and n1, and its expire event spawns the missing notification and deletes the
entry. -/
theorem configured_root_witness :
    watcherRootPath "/dingo/service/".toList = "/dingo".toList ++ servicePrefix ∧
    ('/' ∉ "c1".toList ∧ '\n' ∉ "c1".toList) ∧ ('/' ∉ "n1".toList ∧ '\n' ∉ "n1".toList) ∧
    FindStringSubmatch node "/dingo/service/c1/nodes/n1".toList
      = ["/service/c1/nodes/n1".toList, "c1".toList, "n1".toList] ∧
    loopBody emptyCache ⟨"expire".toList, "/dingo/service/c1/nodes/n1".toList, []⟩
      = [Effect.spawn ⟨"c1".toList, "n1".toList, "missing".toList, []⟩,
          Effect.delete "/dingo/service/c1/nodes/n1".toList] :=
  ⟨by decide, by decide, by decide,
    (configured_root "/dingo/service/".toList "/dingo".toList "c1".toList "n1".toList emptyCache
      "expire".toList [] (by decide) (servicePrefix_only_at_end _ (by decide))
      (by decide) (by decide)).1,
    (configured_root "/dingo/service/".toList "/dingo".toList "c1".toList "n1".toList emptyCache
      "expire".toList [] (by decide) (servicePrefix_only_at_end _ (by decide))
      (by decide) (by decide)).2⟩

/-- C9, as stated, fails: the expire branch has no test on the cache. After the expire event
of `/service/c1/nodes/n1` the key is absent, and a second expire event of the key, with no
upsert in between, dispatches the missing notification again. -/
theorem expire_again_counterexample :
    (processEvent
        (Function.update emptyCache "/service/c1/nodes/n1".toList
          (some ⟨"c1".toList, "n1".toList, "running".toList, "master".toList⟩))
        ⟨"expire".toList, "/service/c1/nodes/n1".toList, []⟩).1 "/service/c1/nodes/n1".toList
      = none ∧
    (processEvent
        (processEvent
          (Function.update emptyCache "/service/c1/nodes/n1".toList
            (some ⟨"c1".toList, "n1".toList, "running".toList, "master".toList⟩))
          ⟨"expire".toList, "/service/c1/nodes/n1".toList, []⟩).1
        ⟨"expire".toList, "/service/c1/nodes/n1".toList, []⟩).2
      = [⟨"c1".toList, "n1".toList, "missing".toList, []⟩] := by
  refine ⟨by decide, by decide⟩

/-- C9, amended. Once an expire event of a matched key has been processed, the key is absent
from the cache and stays absent through any later results of the watcher that hold no upsert
of the key. Expiry is not gated on the cache: an expire event of the key that follows
dispatches one more missing notification and leaves the key absent; an upsert of the key that
follows dispatches its status. -/
theorem after_expire (cache : Cache) (e : Response) (w cluster nodeName : GoString)
    (rs : List NextResult)
    (hmatch : FindStringSubmatch node e.Key = [w, cluster, nodeName])
    (haction : e.Action = expire)
    (hno : ∀ r ∈ processed rs, r.Key = e.Key → r.Action = expire) :
    (watchLoop (processEvent cache e).1 rs).1 e.Key = none ∧
    (∀ e2 : Response, e2.Key = e.Key → e2.Action = expire →
      (processEvent (watchLoop (processEvent cache e).1 rs).1 e2).2
          = [⟨cluster, nodeName, missing, []⟩] ∧
      (processEvent (watchLoop (processEvent cache e).1 rs).1 e2).1 e.Key = none) ∧
    (∀ e2 : Response, e2.Key = e.Key → e2.Action ≠ expire →
      (processEvent (watchLoop (processEvent cache e).1 rs).1 e2).2
          = [⟨cluster, nodeName, (Decode e2.Value newAdvert).1.State,
              (Decode e2.Value newAdvert).1.Role⟩]) := by
  have habs : (watchLoop (processEvent cache e).1 rs).1 e.Key = none :=
    watchLoop_absent rs _ e.Key (expire_absent cache e w cluster nodeName hmatch haction) hno
  refine ⟨habs, ?_, ?_⟩
  · intro e2 hk ha
    have hm2 : FindStringSubmatch node e2.Key = [w, cluster, nodeName] := by rw [hk]; exact hmatch
    rw [processEvent_expire _ e2 w cluster nodeName hm2 ha, hk]
    exact ⟨rfl, by simp⟩
  · intro e2 hk ha
    have hm2 : FindStringSubmatch node e2.Key = [w, cluster, nodeName] := by rw [hk]; exact hmatch
    rw [processEvent_upsert _ e2 w cluster nodeName hm2 ha, hk, habs]
    simp [statusOf]

/-- C9, amended, on `/service/c1/nodes/n1`: after its expire event, a cluster error and a
`set` of the leader key, the key is absent, and a second expire event dispatches the missing
notification again. -/
theorem after_expire_witness :
    FindStringSubmatch node "/service/c1/nodes/n1".toList
        = ["/service/c1/nodes/n1".toList, "c1".toList, "n1".toList] ∧
    (watchLoop
        (processEvent emptyCache ⟨"expire".toList, "/service/c1/nodes/n1".toList, []⟩).1
        [.clusterError, .ok ⟨"set".toList, "/service/c1/leader".toList, "n1".toList⟩]).1
        "/service/c1/nodes/n1".toList = none ∧
    (processEvent
        (watchLoop
          (processEvent emptyCache ⟨"expire".toList, "/service/c1/nodes/n1".toList, []⟩).1
          [.clusterError, .ok ⟨"set".toList, "/service/c1/leader".toList, "n1".toList⟩]).1
        ⟨"expire".toList, "/service/c1/nodes/n1".toList, []⟩).2
      = [⟨"c1".toList, "n1".toList, "missing".toList, []⟩] :=
  ⟨by decide,
    (after_expire emptyCache ⟨"expire".toList, "/service/c1/nodes/n1".toList, []⟩
      "/service/c1/nodes/n1".toList "c1".toList "n1".toList
      [.clusterError, .ok ⟨"set".toList, "/service/c1/leader".toList, "n1".toList⟩]
      (by decide) (by decide) (by decide)).1,
    ((after_expire emptyCache ⟨"expire".toList, "/service/c1/nodes/n1".toList, []⟩
      "/service/c1/nodes/n1".toList "c1".toList "n1".toList
      [.clusterError, .ok ⟨"set".toList, "/service/c1/leader".toList, "n1".toList⟩]
      (by decide) (by decide) (by decide)).2.1
      ⟨"expire".toList, "/service/c1/nodes/n1".toList, []⟩ rfl (by decide)).1⟩

/-- C10, as stated, fails on the expire branch: there the notification is spawned first and
the entry is deleted after it. -/
theorem mutation_order_counterexample :
    loopBody
        (Function.update emptyCache "/service/c1/nodes/n1".toList
          (some ⟨"c1".toList, "n1".toList, "running".toList, "master".toList⟩))
        ⟨"expire".toList, "/service/c1/nodes/n1".toList, []⟩
      = [Effect.spawn ⟨"c1".toList, "n1".toList, "missing".toList, []⟩,
          Effect.delete "/service/c1/nodes/n1".toList] ∧
    mutationBeforeSpawn
        (loopBody
          (Function.update emptyCache "/service/c1/nodes/n1".toList
            (some ⟨"c1".toList, "n1".toList, "running".toList, "master".toList⟩))
          ⟨"expire".toList, "/service/c1/nodes/n1".toList, []⟩) = false := by
  refine ⟨by decide, by decide⟩

/-- C10, amended. In the ordered effects of the loop body on one matched event: for an
upsert the write of the new status comes first and the notification, when there is one, is
spawned after it; for an expire the notification is spawned first and the deletion of the
entry follows. In both cases the mutation is part of the same iteration: the effects of the
iteration are exactly these. -/
theorem mutation_order (cache : Cache) (resp : Response) (w cluster nodeName : GoString)
    (hmatch : FindStringSubmatch node resp.Key = [w, cluster, nodeName]) :
    (resp.Action ≠ expire →
      mutationBeforeSpawn (loopBody cache resp) = true ∧
      ∃ rest, loopBody cache resp
          = Effect.store resp.Key (statusOf cluster nodeName (Decode resp.Value newAdvert).1) ::
              rest ∧
        (rest = [] ∨
          rest = [Effect.spawn (statusOf cluster nodeName (Decode resp.Value newAdvert).1)])) ∧
    (resp.Action = expire →
      loopBody cache resp
        = [Effect.spawn ⟨cluster, nodeName, missing, []⟩, Effect.delete resp.Key]) := by
  constructor
  · intro ha
    rw [loopBody_upsert cache resp w cluster nodeName hmatch ha]
    split
    · exact ⟨rfl, [], rfl, Or.inl rfl⟩
    · exact ⟨rfl, _, rfl, Or.inr rfl⟩
  · intro ha
    rw [loopBody_expire cache resp w cluster nodeName hmatch ha]
    rfl

/-- C10, amended, on a `set` event that dispatches: the write comes first, the spawn second. -/
theorem mutation_order_witness :
    FindStringSubmatch node "/service/c1/nodes/n1".toList
        = ["/service/c1/nodes/n1".toList, "c1".toList, "n1".toList] ∧
    mutationBeforeSpawn
        (loopBody emptyCache
          ⟨"set".toList, "/service/c1/nodes/n1".toList,
            "\x7b\"state\":\"running\",\"role\":\"master\"\x7d".toList⟩) = true ∧
    loopBody emptyCache
        ⟨"set".toList, "/service/c1/nodes/n1".toList,
          "\x7b\"state\":\"running\",\"role\":\"master\"\x7d".toList⟩
      = [Effect.store "/service/c1/nodes/n1".toList
            ⟨"c1".toList, "n1".toList, "running".toList, "master".toList⟩,
          Effect.spawn ⟨"c1".toList, "n1".toList, "running".toList, "master".toList⟩] :=
  ⟨by decide,
    ((mutation_order emptyCache
      ⟨"set".toList, "/service/c1/nodes/n1".toList,
        "\x7b\"state\":\"running\",\"role\":\"master\"\x7d".toList⟩
      "/service/c1/nodes/n1".toList "c1".toList "n1".toList (by decide)).1 (by decide)).1,
    by decide⟩

end DingoWatch
